import Mathlib

/-!
Verification development for the tlsproxy repository.

Two source units are embedded:
* `Internal` models `internal/proxy.go` (package `internal`): the connection
  plane — `Proxy.Reconfigure`, `Proxy.backend`, `handleConnection`,
  `Backend.dial`, `forward`.
* The top-level `TlsProxy` namespace models the configuration validator
  (package `proxy`, `config.go`): `Config.Check`, `validateProxyProtoVersion`
  and the associated data model.

Machine integers are modelled as `Int`/`Nat` (overflow is irrelevant at the
sizes involved, except for `byte(v)` which is taken mod 256 explicitly).
Fallible Go functions returning `error` are modelled with `Except String`.
External effects (file system, DNS, certificate parsing, URL parsing) are
modelled as explicit environment parameters so that every definition stays
executable.
-/

namespace TlsProxy

/-- ASCII lower-casing of one character (A-Z to a-z). -/
def asciiLower (c : Char) : Char :=
  if 65 ≤ c.toNat ∧ c.toNat ≤ 90 then Char.ofNat (c.toNat + 32) else c

/-- ASCII upper-casing of one character (a-z to A-Z). -/
def asciiUpper (c : Char) : Char :=
  if 97 ≤ c.toNat ∧ c.toNat ≤ 122 then Char.ofNat (c.toNat - 32) else c

/-- `strings.ToLower`, modelled on its ASCII behaviour (all strings the
validator lower-cases here are ASCII). -/
def strToLower (s : String) : String :=
  ⟨s.data.map asciiLower⟩

/-- `strings.ToUpper`, modelled on its ASCII behaviour (mode names are
ASCII). -/
def strToUpper (s : String) : String :=
  ⟨s.data.map asciiUpper⟩

/-- Modelled from the spec: IDNA2008-ASCII normalization applied at admission
("Internationalized names are converted to ascii using the IDNA2008 lookup
standard"). The repository's `idnaToASCII` helper is not under `src/`; on
ASCII host names the IDNA2008 lookup mapping is exactly ASCII case folding,
which is what the claims exercise, so it is modelled as lower-casing. -/
def idnaToASCII (s : String) : String :=
  strToLower s

namespace Internal

/-- Modelled from the spec and from field usage in `internal/proxy.go`: the
`tls.Config` value built by `Reconfigure` for backends with client
authentication (GetCertificate, RequireAndVerifyClientCert, optional
ClientCAs pool).  The certificate pool is opaque. -/
structure TLSServerConfig where
  requireClientCert : Bool
  ClientCAs : Option Unit
deriving DecidableEq, Repr

/-- Modelled from the spec and from field usage in `internal/proxy.go`
(the defining `config.go` of package `internal` is not under `src/`):
the early-version `Backend` with exactly the fields `proxy.go` reads. -/
structure Backend where
  ServerNames : List String
  ClientAuth : Bool
  ClientCAs : String
  ForwardRootCAs : String
  UseTLS : Bool
  InsecureSkipVerify : Bool
  ForwardServerName : String
  ForwardTimeout : Int
  Addresses : List String
  next : Nat
  tlsConfig : Option TLSServerConfig := none
  forwardRootCAs : Option Unit := none
deriving DecidableEq, Repr

/-- Modelled from the spec and from field usage in `internal/proxy.go`:
the early-version `Config` with the fields `proxy.go` reads. -/
structure Config where
  HTTPAddr : String
  TLSAddr : String
  CacheDir : String
  Email : String
  MaxOpen : Int
  Backends : List Backend
deriving Repr

/-- The mutable state of `Proxy` guarded by `p.mu`: the stored configuration
and the server-name dispatch map (`p.cfg`, `p.mapping`). -/
structure ProxyState where
  cfg : Option Config
  mapping : List (String × Backend)

/-- Go map assignment `mapping[sn] = be`: the most recent binding wins, which
with `List.lookup` (first match) is modelled by prepending. -/
def mapSet (m : List (String × Backend)) (sn : String) (be : Backend) :
    List (String × Backend) :=
  (sn, be) :: m

/-- The mapping-construction loop of `Reconfigure`:
`for _, sn := range be.ServerNames { mapping[sn] = be }`. -/
def insertServerNames (be : Backend) (m : List (String × Backend)) :
    List (String × Backend) :=
  be.ServerNames.foldl (fun m sn => mapSet m sn be) m

/-- The full mapping built by `Reconfigure` over all backends. -/
def buildMapping (bes : List Backend) : List (String × Backend) :=
  bes.foldl (fun m be => insertServerNames be m) []

/-- The per-backend body of the `Reconfigure` loop: build the `tls.Config`
when `be.ClientAuth` is set (loading `ClientCAs` if non-empty), load
`ForwardRootCAs` if non-empty, and register the server names.  `loadCerts`
models the certificate loader of `proxy.go` (file read + PEM parse): `none`
means it fails.  Go mutates `be` through a pointer before the names are
read again, so the updated backend is inserted. -/
def reconfigureBackends (loadCerts : String → Option Unit) :
    List Backend → List (String × Backend) →
    Except String (List (String × Backend))
  | [], m => .ok m
  | be :: rest, m => do
      let be ←
        if be.ClientAuth then
          if be.ClientCAs ≠ "" then
            match loadCerts be.ClientCAs with
            | none => throw "invalid certs"
            | some pool =>
                pure { be with tlsConfig := some ⟨true, some pool⟩ }
          else
            pure { be with tlsConfig := some ⟨true, none⟩ }
        else
          pure be
      let be ←
        if be.ForwardRootCAs ≠ "" then
          match loadCerts be.ForwardRootCAs with
          | none => throw "invalid certs"
          | some pool => pure { be with forwardRootCAs := some pool }
        else
          pure be
      reconfigureBackends loadCerts rest (insertServerNames be m)

/-- `Proxy.Reconfigure`: marshal the stored and the new configuration
(`yaml.Marshal`, modelled as an abstract serialization function); if the
serialized bytes are equal, return `nil` without touching any state.
Otherwise rebuild the mapping and install the new configuration. -/
def reconfigure (marshal : Option Config → String)
    (loadCerts : String → Option Unit)
    (st : ProxyState) (cfg : Config) : Except String ProxyState :=
  if marshal st.cfg = marshal (some cfg) then
    .ok st
  else do
    let mapping ← reconfigureBackends loadCerts cfg.Backends []
    .ok { cfg := some cfg, mapping := mapping }

/-- `Proxy.backend`: exact lookup of the SNI in the mapping; unknown names
produce an error. -/
def backend (mapping : List (String × Backend)) (sni : String) :
    Except String Backend :=
  match mapping.lookup sni with
  | some be => .ok be
  | none => .error ("unexpected SNI: " ++ sni)

/-- The `GetConfigForClient` callback installed by `Start`: resolve the
backend for the ClientHello server name and return its `tlsConfig`; an
unresolved name fails the handshake with the lookup error. -/
def getConfigForClient (mapping : List (String × Backend)) (sni : String) :
    Except String (Option TLSServerConfig) :=
  match backend mapping sni with
  | .ok be => .ok be.tlsConfig
  | .error e => .error e

/-- Result of one `Backend.dial` call.  `oob` models the Go runtime panic
on the out-of-range index `be.Addresses[be.next]` when the address list is
empty. -/
inductive DialResult
  | conn (addr : String)
  | err (addr : String)
  | oob
deriving DecidableEq, Repr

/-- Outcome of a `dial` call together with the final cursor and the list of
addresses attempted (in order). -/
structure DialOutcome where
  result : DialResult
  next : Nat
  attempts : List String
deriving DecidableEq, Repr

/-- The retry loop of `Backend.dial`.  `max` is the remaining attempt
budget (initialized to `len(be.Addresses)` on the first iteration; Go's
`var max int` starts at 0 and is set to `sz` the first time around).  Each
iteration reads `Addresses[next]`, advances `next := (next+1) % sz`, and on
failure decrements `max`, continuing while `max > 0`.  `dialOk` models
whether dialing a given address succeeds. -/
def dialIter (Addresses : List String) (dialOk : String → Bool)
    (next max : Nat) : DialOutcome :=
  if next < Addresses.length then
    let addr := Addresses[next]?.getD ""
    let next2 := (next + 1) % Addresses.length
    if dialOk addr then
      ⟨.conn addr, next2, [addr]⟩
    else if max - 1 > 0 then
      let out := dialIter Addresses dialOk next2 (max - 1)
      { out with attempts := addr :: out.attempts }
    else
      ⟨.err addr, next2, [addr]⟩
  else
    ⟨.oob, next, []⟩
termination_by max
decreasing_by omega

/-- `Backend.dial` entry point: one full call of the retry loop starting at
the stored cursor, with budget `len(Addresses)`. -/
def dial (Addresses : List String) (dialOk : String → Bool) (next : Nat) :
    DialOutcome :=
  dialIter Addresses dialOk next Addresses.length

/-- The round-robin attempt order of `Backend.dial`: `k` successive
addresses read at cursor positions `next, (next+1) % len, ...`.  Mirrors the
cursor arithmetic of `dialIter`. -/
def rotation (Addresses : List String) (next : Nat) : Nat → List String
  | 0 => []
  | k + 1 =>
      Addresses[next]?.getD "" ::
        rotation Addresses ((next + 1) % Addresses.length) k

/-- Endpoint model for `forward`: Go type assertions
`out.(closeWriter)` / `in.(closeReader)` succeed only for connection types
exposing `CloseWrite` / `CloseRead` (e.g. `*net.TCPConn` has both,
`*tls.Conn` only `CloseWrite`).  `net.Conn` always satisfies `io.Closer`. -/
structure Conn where
  hasCloseWrite : Bool
  hasCloseRead : Bool
deriving DecidableEq, Repr

/-- Observable actions `forward` performs on its two endpoints. -/
inductive FwdAction
  | closeOut
  | closeIn
  | closeWriteOut
  | closeReadIn
deriving DecidableEq, Repr

/-- `forward(out, in)`: copy until EOF or error.  On a copy error, fully
close both endpoints and return the error.  On EOF, propagate the
half-close: `CloseWrite` on `out` and `CloseRead` on `in` (when the
endpoint's type supports it) and return `nil`.  `copyResult` is the error
of `io.Copy` (`none` = clean end-of-stream). -/
def forward (out inn : Conn) (copyResult : Option String) :
    List FwdAction × Option String :=
  match copyResult with
  | some err => ([.closeOut, .closeIn], some err)
  | none =>
      ((if out.hasCloseWrite then [FwdAction.closeWriteOut] else []) ++
       (if inn.hasCloseRead then [FwdAction.closeReadIn] else []), none)

/-- Exit paths of `handleConnection`. -/
inductive Outcome
  | tooManyOpen
  | handshakeFailed
  | unknownSNI (sni : String)
  | dialFailed
  | dialPanicked
  | forwarded (sni : String) (addr : String)
deriving DecidableEq, Repr

/-- Observable result of one `handleConnection` run: the exit path, the
value of `num_open` after the deferred decrement, whether the TLS handshake
was attempted, and the upstream addresses dialed. -/
structure HCResult where
  outcome : Outcome
  numOpen : Int
  didHandshake : Bool
  dialAttempts : List String
deriving DecidableEq, Repr

/-- `handleConnection`: increment `num_open` (`p.incNumOpen(1)`); the
deferred `p.incNumOpen(-1)` fires on every exit path, so each result
carries `numOpen0 + 1 - 1`.  If the incremented value satisfies
`numOpen >= cfg.MaxOpen` the connection is closed before the handshake.
Otherwise the handshake runs (`handshake = some sni` on success, `none` on
failure), the backend is resolved via `Proxy.backend`, and the upstream is
dialed with `Backend.dial`. -/
def handleConnection (MaxOpen : Int) (mapping : List (String × Backend))
    (numOpen0 : Int) (handshake : Option String) (dialOk : String → Bool) :
    HCResult :=
  let numOpen := numOpen0 + 1
  if numOpen ≥ MaxOpen then
    ⟨.tooManyOpen, numOpen - 1, false, []⟩
  else
    match handshake with
    | none => ⟨.handshakeFailed, numOpen - 1, true, []⟩
    | some sni =>
        match backend mapping sni with
        | .error _ => ⟨.unknownSNI sni, numOpen - 1, true, []⟩
        | .ok be =>
            let d := dial be.Addresses dialOk be.next
            match d.result with
            | .conn addr => ⟨.forwarded sni addr, numOpen - 1, true, d.attempts⟩
            | .err _ => ⟨.dialFailed, numOpen - 1, true, d.attempts⟩
            | .oob => ⟨.dialPanicked, numOpen - 1, true, d.attempts⟩

/-- Concrete address list used to instantiate the dial theorems. -/
def addrsW : List String := ["10.0.0.1:1", "10.0.0.2:1", "10.0.0.3:1"]

/-- Concrete dial oracle: only the third address accepts. -/
def okW : String → Bool := fun a => a == "10.0.0.3:1"

/-- Concrete early-version configuration used to instantiate the
reconfiguration theorem. -/
def cfgInternalW : Config :=
  { HTTPAddr := "", TLSAddr := ":10443", CacheDir := "/tmp/c", Email := "",
    MaxOpen := 100, Backends := [] }

/-- Concrete backend whose single (already IDNA-normalized) server name is
`example.com`; used to exercise the lookup theorems. -/
def beC6 : Backend :=
  { ServerNames := ["example.com"], ClientAuth := false, ClientCAs := "",
    ForwardRootCAs := "", UseTLS := false, InsecureSkipVerify := false,
    ForwardServerName := "", ForwardTimeout := 0,
    Addresses := ["192.168.0.1:8443"], next := 0 }

end Internal

/-! The configuration validator (`config.go`, package `proxy`). -/

def ModePlaintext : String := "PLAINTEXT"
def ModeTCP : String := "TCP"
def ModeTLS : String := "TLS"
def ModeTLSPassthrough : String := "TLSPASSTHROUGH"
def ModeQUIC : String := "QUIC"
def ModeHTTP : String := "HTTP"
def ModeHTTPS : String := "HTTPS"
def ModeLocal : String := "LOCAL"
def ModeConsole : String := "CONSOLE"

def validModes : List String :=
  [ModeTCP, ModeTLS, ModeTLSPassthrough, ModeQUIC, ModeHTTP, ModeHTTPS,
   ModeLocal, ModeConsole]

def validXFCCFields : List String :=
  ["cert", "chain", "hash", "subject", "uri", "dns"]

def defaultALPNProtos : List String := ["h2", "http/1.1"]
def defaultALPNProtosPlusH3 : List String := ["h3", "h2", "http/1.1"]

/-- `strings.HasSuffix`. -/
def strEndsWith (s suffix : String) : Bool :=
  suffix.data.isSuffixOf s.data

/-- `strings.HasPrefix` (used for path-override paths). -/
def strStartsWith (s pre : String) : Bool :=
  pre.data.isPrefixOf s.data

/-- `ClientAuth` — the fields `Config.Check` reads. -/
structure ClientAuth where
  RootCAs : List String := []
  AddClientCertHeader : List String := []
deriving DecidableEq, Repr

structure LocalOIDCClient where
  ID : String := ""
  Secret : String := ""
  RedirectURI : List String := []
deriving DecidableEq, Repr

structure LocalOIDCRewriteRule where
  InputClaim : String := ""
  OutputClaim : String := ""
  Regex : String := ""
  Value : String := ""
deriving DecidableEq, Repr

structure LocalOIDCServer where
  Clients : List LocalOIDCClient := []
  RewriteRules : List LocalOIDCRewriteRule := []
deriving DecidableEq, Repr

/-- `BackendSSO` — the fields `Config.Check` reads. -/
structure BackendSSO where
  Provider : String := ""
  LocalOIDCServer : Option LocalOIDCServer := none
deriving DecidableEq, Repr

/-- `PathOverride` — the fields `Config.Check` reads or writes, plus the
internal `proxyProtocolVersion` byte it computes. -/
structure PathOverride where
  Paths : List String := []
  Mode : String := ""
  ForwardServerName : String := ""
  ForwardRootCAs : List String := []
  ForwardTimeout : Int := 0
  ProxyProtocolVersion : String := ""
  proxyProtocolVersion : Nat := 0
deriving DecidableEq, Repr

/-- `Backend` (validator version) — the fields `Config.Check` reads or
writes, plus the internal `proxyProtocolVersion` byte.  Durations are
nanoseconds (`time.Duration`). -/
structure Backend where
  ServerNames : List String := []
  ClientAuth : Option ClientAuth := none
  AllowIPs : Option (List String) := none
  DenyIPs : Option (List String) := none
  SSO : Option BackendSSO := none
  ALPNProtos : Option (List String) := none
  BackendProto : Option String := none
  Mode : String := ""
  BWLimit : String := ""
  Addresses : List String := []
  ForwardRateLimit : Int := 0
  ForwardServerName : String := ""
  ForwardRootCAs : List String := []
  ForwardTimeout : Int := 0
  PathOverrides : List PathOverride := []
  ProxyProtocolVersion : String := ""
  ServerCloseEndsConnection : Option Bool := none
  ClientCloseEndsConnection : Option Bool := none
  HalfCloseTimeout : Option Int := none
  proxyProtocolVersion : Nat := 0
deriving DecidableEq, Repr

structure ConfigOIDC where
  Name : String := ""
  DiscoveryURL : String := ""
  AuthEndpoint : String := ""
  TokenEndpoint : String := ""
  RedirectURL : String := ""
  ClientID : String := ""
  ClientSecret : String := ""
  Domain : String := ""
deriving DecidableEq, Repr

structure ConfigSAML where
  Name : String := ""
  SSOURL : String := ""
  EntityID : String := ""
  Certs : String := ""
  ACSURL : String := ""
  Domain : String := ""
deriving DecidableEq, Repr

structure ConfigPasskey where
  Name : String := ""
  IdentityProvider : String := ""
  Endpoint : String := ""
  Domain : String := ""
deriving DecidableEq, Repr

/-- `ConfigPKI` — the fields `Config.Check` reads. -/
structure ConfigPKI where
  Name : String := ""
  Endpoint : String := ""
deriving DecidableEq, Repr

/-- `BWLimit` — `Check` reads only the name (the float limits are unused
during validation). -/
structure BWLimit where
  Name : String := ""
deriving DecidableEq, Repr

/-- `Config` — the fields `Config.Check` reads or writes.  `Definitions`
(`any`, a YAML-anchor holder) carries no semantic load and is cleared by
`Check`. -/
structure Config where
  Definitions : Option Unit := none
  HTTPAddr : String := ""
  TLSAddr : String := ""
  EnableQUIC : Option Bool := none
  CacheDir : String := ""
  DefaultServerName : String := ""
  Backends : List Backend := []
  Email : String := ""
  MaxOpen : Int := 0
  AcceptTOS : Bool := false
  OIDCProviders : List ConfigOIDC := []
  SAMLProviders : List ConfigSAML := []
  PasskeyProviders : List ConfigPasskey := []
  PKI : List ConfigPKI := []
  BWLimits : List BWLimit := []
deriving DecidableEq, Repr

/-- The `(server name, ALPN protocol)` key of the duplicate check. -/
structure beKey where
  serverName : String
  proto : String
deriving DecidableEq, Repr

/-- Environment of `Config.Check`: results of the process/OS-dependent and
library helpers it calls.  `userCacheDir` is `os.UserCacheDir`,
`openFileLimit` the file-descriptor soft limit helper, `quicIsEnabled` the
build flag, `loadCertsOk` whether `loadCerts` succeeds on a given name,
`parseCIDROk` whether `net.ParseCIDR` accepts a string, `urlParseOk`
whether `url.Parse` accepts it, `regexpOk` whether `regexp.Compile`
accepts it, `hostOf` the host part extracted by the repository's
`hostAndPath` helper (modelled from the spec: the host component of the
URL; the helper itself is not under `src/`), and `mkdirOk` whether the
final `os.MkdirAll(cfg.CacheDir, 0o700)` succeeds. -/
structure Env where
  userCacheDir : Option String
  openFileLimit : Option Int
  quicIsEnabled : Bool
  loadCertsOk : String → Bool
  parseCIDROk : String → Bool
  urlParseOk : String → Bool
  regexpOk : String → Bool
  hostOf : String → Option String
  mkdirOk : Bool

/-- The digit run of `strconv.ParseInt`: all base-10 digits, non-empty. -/
def digitsVal (ds : List Char) : Option Int :=
  if ds = [] then none
  else if ds.all Char.isDigit then
    some (ds.foldl (fun acc c => acc * 10 + ((c.toNat : Int) - 48)) 0)
  else none

/-- `strconv.ParseInt(s, 10, 8)`: optional sign, non-empty digit run,
result within the int8 range `[-128, 127]`; anything else is an error. -/
def parseInt8 (s : String) : Option Int :=
  let signAndDigits : Bool × List Char :=
    match s.data with
    | '+' :: ds => (false, ds)
    | '-' :: ds => (true, ds)
    | ds => (false, ds)
  match digitsVal signAndDigits.2 with
  | none => none
  | some n =>
      let v : Int := if signAndDigits.1 then -n else n
      if v < -128 ∨ 127 < v then none else some v

/-- Go's `byte(v)`: the low 8 bits in two's complement. -/
def byteOf (v : Int) : Nat := (v % 256).toNat

/-- `validateProxyProtoVersion`: `""` maps to 0; otherwise the string must
be at least two characters long, start with `v`, and the remainder must
parse as a base-10 int8; the byte value of the parsed integer is
returned. -/
def validateProxyProtoVersion (s : String) : Except String Nat :=
  if s = "" then .ok 0
  else if s.length < 2 ∨ s.data.head? ≠ some 'v' then
    .error ("invalid value " ++ s ++ ", expected v1 or v2")
  else
    match parseInt8 ⟨s.data.drop 1⟩ with
    | none => .error ("invalid numeric value " ++ s)
    | some v => .ok (byteOf v)

/-- First block of `Config.Check`: default `CacheDir`
(`os.UserCacheDir()/tlsproxy/letsencrypt`), `TLSAddr` (`:10443`), `MaxOpen`
(`openFileLimit()/2 - 100`), `EnableQUIC` (the build flag), and reject
QUIC when the binary does not support it. -/
def checkTopFields (env : Env) (cacheDir tlsAddr : String) (maxOpen : Int)
    (enableQUIC : Option Bool) :
    Except String (String × String × Int × Bool) :=
  match (if cacheDir = "" then
      (match env.userCacheDir with
       | none => .error "CacheDir must be set in config"
       | some d => .ok (d ++ "/tlsproxy/letsencrypt"))
    else .ok cacheDir : Except String String) with
  | .error e => .error e
  | .ok cacheDir =>
  let tlsAddr := if tlsAddr = "" then ":10443" else tlsAddr
  match (if maxOpen = (0 : Int) then
      (match env.openFileLimit with
       | none => .error "MaxOpen: value must be set"
       | some n => .ok (Int.tdiv n 2 - 100))
    else .ok maxOpen : Except String Int) with
  | .error e => .error e
  | .ok maxOpen =>
  let enableQUIC :=
    match enableQUIC with
    | none => env.quicIsEnabled
    | some b => b
  if enableQUIC = true ∧ env.quicIsEnabled = false then
    .error "EnableQUIC: QUIC is not supported in this binary"
  else
    .ok (cacheDir, tlsAddr, maxOpen, enableQUIC)

/-- The `Domain != ""` handling shared by the three identity-provider
loops: normalize the domain, extract the host of the provider's URL, and
require the suffix match; returns the (possibly normalized) domain. -/
def checkDomain (env : Env) (domain url : String) : Except String String :=
  if domain = "" then .ok domain
  else
    match env.hostOf url with
    | none => .error "provider url: parse error"
    | some host =>
        let d := idnaToASCII domain
        if strEndsWith host d = false then
          .error "provider Domain must be part of the url"
        else .ok d

/-- The OIDC-provider loop of `Config.Check`: duplicate names, endpoint
presence, URL parsing, required client credentials, and the domain/redirect
suffix rule; `Domain` is IDNA-normalized in place. -/
def checkOIDC (env : Env) (seen : List String) :
    List ConfigOIDC → Except String (List ConfigOIDC × List String)
  | [] => .ok ([], seen)
  | oi :: rest =>
      if seen.contains oi.Name then
        .error ("oidc.Name: duplicate provider name " ++ oi.Name)
      else if (oi.AuthEndpoint = "" ∨ oi.TokenEndpoint = "") ∧
          oi.DiscoveryURL = "" then
        .error "oidc: AuthEndpoint and TokenEndpoint must be set unless DiscoveryURL is set"
      else if oi.DiscoveryURL ≠ "" ∧ env.urlParseOk oi.DiscoveryURL = false
          then
        .error "oidc.DiscoveryURL: parse error"
      else if oi.AuthEndpoint ≠ "" ∧ env.urlParseOk oi.AuthEndpoint = false
          then
        .error "oidc.AuthEndpoint: parse error"
      else if oi.TokenEndpoint ≠ "" ∧ env.urlParseOk oi.TokenEndpoint = false
          then
        .error "oidc.TokenEndpoint: parse error"
      else if oi.RedirectURL = "" then
        .error "oidc.RedirectURL must be set"
      else if env.urlParseOk oi.RedirectURL = false then
        .error "oidc.RedirectURL: parse error"
      else if oi.ClientID = "" then
        .error "oidc.ClientID must be set"
      else if oi.ClientSecret = "" then
        .error "oidc.ClientSecret must be set"
      else
        match checkDomain env oi.Domain oi.RedirectURL with
        | .error e => .error e
        | .ok domain =>
        match checkOIDC env (oi.Name :: seen) rest with
        | .error e => .error e
        | .ok (rest2, seen2) => .ok ({ oi with Domain := domain } :: rest2, seen2)

/-- The SAML-provider loop of `Config.Check`. -/
def checkSAML (env : Env) (seen : List String) :
    List ConfigSAML → Except String (List ConfigSAML × List String)
  | [] => .ok ([], seen)
  | s :: rest =>
      if seen.contains s.Name then
        .error ("saml.Name: duplicate provider name " ++ s.Name)
      else if s.SSOURL = "" then .error "saml.SSOURL must be set"
      else if s.EntityID = "" then .error "saml.EntityID must be set"
      else if s.Certs = "" then .error "saml.Certs must be set"
      else if s.ACSURL = "" then .error "saml.ACSURL must be set"
      else
        match checkDomain env s.Domain s.ACSURL with
        | .error e => .error e
        | .ok domain =>
        match checkSAML env (s.Name :: seen) rest with
        | .error e => .error e
        | .ok (rest2, seen2) => .ok ({ s with Domain := domain } :: rest2, seen2)

/-- The passkey-provider loop of `Config.Check`; the referenced
`IdentityProvider` must already be registered (OIDC, SAML, or an earlier
passkey provider — the provider's own name is registered first, as in the
source). -/
def checkPasskey (env : Env) (seen : List String) :
    List ConfigPasskey → Except String (List ConfigPasskey × List String)
  | [] => .ok ([], seen)
  | pp :: rest =>
      if seen.contains pp.Name then
        .error ("passkey.Name: duplicate provider name " ++ pp.Name)
      else if pp.Endpoint = "" then .error "passkey.Endpoint must be set"
      else if pp.IdentityProvider = "" then
        .error "passkey.IdentityProvider must be set"
      else if ((pp.Name :: seen).contains pp.IdentityProvider) = false then
        .error ("passkey.IdentityProvider has unexpected value " ++
          pp.IdentityProvider)
      else
        match checkDomain env pp.Domain pp.Endpoint with
        | .error e => .error e
        | .ok domain =>
        match checkPasskey env (pp.Name :: seen) rest with
        | .error e => .error e
        | .ok (rest2, seen2) =>
            .ok ({ pp with Domain := domain } :: rest2, seen2)

/-- The first backend loop of `Config.Check`: uppercase the mode, default
empty/`PLAINTEXT` to `TCP`, require a valid mode, reject client auth with
TLS passthrough, default the ALPN list (`h3` added for QUIC-capable modes
when QUIC is enabled), restrict `BackendProto` to HTTP/HTTPS, and default
the half-close flags to `false` for QUIC mode. -/
def checkBackendMode (enableQUIC : Bool) (be : Backend) :
    Except String Backend :=
  let be := { be with Mode := strToUpper be.Mode }
  let be :=
    if be.Mode = "" ∨ be.Mode = ModePlaintext then { be with Mode := ModeTCP }
    else be
  if (validModes.contains be.Mode) = false then
    .error ("backend.Mode: value " ++ be.Mode ++
      " must be one of the valid modes")
  else if be.Mode = ModeTLSPassthrough ∧ be.ClientAuth.isSome then
    .error "backend.ClientAuth: client auth is not compatible with TLS Passthrough"
  else
  let be :=
    match be.ALPNProtos with
    | some _ => be
    | none =>
        if enableQUIC = true ∧ (be.Mode = ModeHTTP ∨ be.Mode = ModeHTTPS ∨
            be.Mode = ModeQUIC ∨ be.Mode = ModeLocal ∨
            be.Mode = ModeConsole) then
          { be with ALPNProtos := some defaultALPNProtosPlusH3 }
        else
          { be with ALPNProtos := some defaultALPNProtos }
  if be.BackendProto.isSome ∧ be.Mode ≠ ModeHTTP ∧ be.Mode ≠ ModeHTTPS then
    .error "backend.BackendProto: field is not valid in this mode"
  else
  let be :=
    if be.Mode = ModeQUIC then
      let be :=
        match be.ServerCloseEndsConnection with
        | none => { be with ServerCloseEndsConnection := some false }
        | some _ => be
      match be.ClientCloseEndsConnection with
      | none => { be with ClientCloseEndsConnection := some false }
      | some _ => be
    else be
  .ok be

def checkBackendModes (enableQUIC : Bool) :
    List Backend → Except String (List Backend)
  | [] => .ok []
  | be :: rest =>
      match checkBackendMode enableQUIC be with
      | .error e => .error e
      | .ok be2 =>
      match checkBackendModes enableQUIC rest with
      | .error e => .error e
      | .ok rest2 => .ok (be2 :: rest2)

/-- The effective ALPN list of a backend after defaulting
(`*be.ALPNProtos`). -/
def alpnOf (be : Backend) : List String := be.ALPNProtos.getD []

/-- The inner loop over `*be.ALPNProtos` registering `(sn, proto)` keys;
a key seen twice is a duplicate. -/
def addProtoKeys (sn : String) : List String → List beKey →
    Except String (List beKey)
  | [], ks => .ok ks
  | proto :: rest, ks =>
      if ks.contains ⟨sn, proto⟩ then
        .error ("backend.ServerNames: duplicate server name " ++ sn ++
          " alpnProto " ++ proto ++ " combination")
      else
        addProtoKeys sn rest (⟨sn, proto⟩ :: ks)

/-- The per-backend body of the server-name loop of `Config.Check`:
normalize each name, register it in `serverNames` (first backend wins;
the stored value is the mode, the only field the later PKI check reads
through the Go pointer), error when an already-registered name is used by
a backend whose ALPN list is empty, then register all `(sn, proto)`
keys. -/
def checkBackendServerNames (mode : String) (alpn : List String) :
    List String → List (String × String) → List beKey →
    Except String (List String × List (String × String) × List beKey)
  | [], sns, ks => .ok ([], sns, ks)
  | sn :: restNames, sns, ks =>
      let sn := idnaToASCII sn
      match (if (sns.lookup sn).isSome then
          (if alpn.length = 0 then
            .error ("backend.ServerNames: duplicate server name " ++ sn)
          else .ok sns)
        else .ok (sns ++ [(sn, mode)]) :
          Except String (List (String × String))) with
      | .error e => .error e
      | .ok sns =>
      match addProtoKeys sn alpn ks with
      | .error e => .error e
      | .ok ks =>
      match checkBackendServerNames mode alpn restNames sns ks with
      | .error e => .error e
      | .ok (rest2, sns2, ks2) => .ok (sn :: rest2, sns2, ks2)

/-- The server-name loop of `Config.Check` over all backends, writing the
normalized names back. -/
def checkServerNamesLoop (sns : List (String × String)) (ks : List beKey) :
    List Backend →
    Except String (List Backend × List (String × String) × List beKey)
  | [] => .ok ([], sns, ks)
  | be :: rest =>
      match checkBackendServerNames be.Mode (alpnOf be) be.ServerNames sns ks
        with
      | .error e => .error e
      | .ok (names2, sns2, ks2) =>
      match checkServerNamesLoop sns2 ks2 rest with
      | .error e => .error e
      | .ok (rest2, sns3, ks3) =>
          .ok ({ be with ServerNames := names2 } :: rest2, sns3, ks3)

/-- The PKI loop of `Config.Check`: unique names; a non-empty endpoint must
resolve (by host) to a registered backend in LOCAL or CONSOLE mode. -/
def checkPKIs (env : Env) (sns : List (String × String)) (seen : List String) :
    List ConfigPKI → Except String (List String)
  | [] => .ok seen
  | p :: rest => do
      if seen.contains p.Name then
        throw ("pki.Name: duplicate name " ++ p.Name)
      let seen := p.Name :: seen
      if p.Endpoint ≠ "" then
        match env.hostOf p.Endpoint with
        | none => throw "pki.Endpoint: parse error"
        | some host =>
            match sns.lookup host with
            | none => throw "pki.Endpoint: backend not found"
            | some mode =>
                let mode := strToUpper mode
                if mode ≠ ModeLocal ∧ mode ≠ ModeConsole then
                  throw "pki.Endpoint: backend must have mode LOCAL or CONSOLE"
                else
                  checkPKIs env sns seen rest
      else
        checkPKIs env sns seen rest

/-- The bandwidth-limit loop of `Config.Check`: unique group names. -/
def checkBWLimits (seen : List String) :
    List BWLimit → Except String (List String)
  | [] => .ok seen
  | l :: rest =>
      if seen.contains l.Name then
        .error ("bwLimit.Name: duplicate name " ++ l.Name)
      else
        checkBWLimits (l.Name :: seen) rest

/-- Root-CA lists (`ClientAuth.RootCAs`, `ForwardRootCAs`): PKI names are
accepted as-is, anything else must load as certificates. -/
def checkRootCAList (env : Env) (pkis : List String) :
    List String → Except String Unit
  | [] => .ok ()
  | n :: rest =>
      if pkis.contains n then checkRootCAList env pkis rest
      else if env.loadCertsOk n then checkRootCAList env pkis rest
      else .error ("invalid certs " ++ n)

/-- `AddClientCertHeader` fields must be drawn from `validXFCCFields`
(case-insensitively). -/
def checkXFCCFields : List String → Except String Unit
  | [] => .ok ()
  | f :: rest =>
      if validXFCCFields.contains (strToLower f) then checkXFCCFields rest
      else .error ("invalid field " ++ f)

def checkOIDCClients : List LocalOIDCClient → Except String Unit
  | [] => .ok ()
  | c :: rest =>
      if c.ID = "" then .error "Clients.ID must be set"
      else if c.Secret = "" then .error "Clients.Secret must be set"
      else if c.RedirectURI.length = 0 then
        .error "Clients.RedirectURI must be set"
      else checkOIDCClients rest

def checkRewriteRules (env : Env) :
    List LocalOIDCRewriteRule → Except String Unit
  | [] => .ok ()
  | rr :: rest =>
      if rr.InputClaim = "" then .error "RewriteRules.InputClaim must be set"
      else if rr.OutputClaim = "" then
        .error "RewriteRules.OutputClaim must be set"
      else if rr.Regex = "" then .error "RewriteRules.Regex must be set"
      else if env.regexpOk rr.Regex = false then
        .error "RewriteRules.Regex: compile error"
      else checkRewriteRules env rest

/-- `AllowIPs` / `DenyIPs` entries must parse as CIDR networks. -/
def checkCIDRs (env : Env) : List String → Except String Unit
  | [] => .ok ()
  | c :: rest =>
      if env.parseCIDROk c then checkCIDRs env rest
      else .error ("invalid CIDR " ++ c)

def checkPathPaths : List String → Except String Unit
  | [] => .ok ()
  | n :: rest =>
      if strStartsWith n "/" then checkPathPaths rest
      else .error "backend.PathOverrides.Paths: must start with /"

/-- The per-override body of the path-override loop of `Config.Check`. -/
def checkPathOverride (env : Env) (pkis : List String) (beMode : String)
    (po : PathOverride) : Except String PathOverride :=
  if po.Paths.length = 0 then
    .error "backend.PathOverrides.Paths: cannot be empty"
  else
  match checkPathPaths po.Paths with
  | .error e => .error e
  | .ok _ =>
  let po := if po.Mode = "" then { po with Mode := beMode } else po
  let po := { po with Mode := strToUpper po.Mode }
  if po.Mode ≠ ModeHTTP ∧ po.Mode ≠ ModeHTTPS then
    .error "backend.PathOverrides.Mode: must be either HTTP or HTTPS"
  else
  match checkRootCAList env pkis po.ForwardRootCAs with
  | .error e => .error e
  | .ok _ =>
  let po := { po with ForwardServerName := idnaToASCII po.ForwardServerName }
  let po :=
    if po.ForwardTimeout = (0 : Int) then
      { po with ForwardTimeout := 30000000000 }
    else po
  match validateProxyProtoVersion po.ProxyProtocolVersion with
  | .error e => .error e
  | .ok ver => .ok { po with proxyProtocolVersion := ver }

def checkPathOverrides (env : Env) (pkis : List String) (beMode : String) :
    List PathOverride → Except String (List PathOverride)
  | [] => .ok []
  | po :: rest =>
      match checkPathOverride env pkis beMode po with
      | .error e => .error e
      | .ok po2 =>
      match checkPathOverrides env pkis beMode rest with
      | .error e => .error e
      | .ok rest2 => .ok (po2 :: rest2)

/-- The client-auth section of the final backend loop. -/
def checkClientAuthSection (env : Env) (pkis : List String) :
    Option ClientAuth → Except String Unit
  | none => .ok ()
  | some ca =>
      match checkRootCAList env pkis ca.RootCAs with
      | .error e => .error e
      | .ok _ => checkXFCCFields ca.AddClientCertHeader

/-- The SSO section of the final backend loop. -/
def checkSSOSection (env : Env) (idps : List String) :
    Option BackendSSO → Except String Unit
  | none => .ok ()
  | some sso =>
      if (idps.contains sso.Provider) = false then
        .error ("backend.SSO.Provider: unknown provider " ++ sso.Provider)
      else
        match sso.LocalOIDCServer with
        | none => .ok ()
        | some srv =>
            match checkOIDCClients srv.Clients with
            | .error e => .error e
            | .ok _ => checkRewriteRules env srv.RewriteRules

/-- The `AllowIPs`/`DenyIPs` sections of the final backend loop. -/
def checkIPsSection (env : Env) : Option (List String) → Except String Unit
  | none => .ok ()
  | some ips => checkCIDRs env ips

/-- The per-backend body of the final backend loop of `Config.Check`:
server-name and address presence per mode, bandwidth-limit reference,
client-auth material, SSO references and local OIDC server contents,
forward root CAs, timeout/rate defaulting, IP lists, forward server name
normalization, PROXY-protocol version parsing, and path overrides. -/
def checkBackendDetail (env : Env) (pkis bwNames idps : List String)
    (be : Backend) : Except String Backend :=
  if be.ServerNames.length = 0 then
    .error "backend.ServerNames: backend must have at least one server name"
  else if be.Addresses.length = 0 ∧ be.Mode ≠ ModeConsole ∧
      be.Mode ≠ ModeHTTP ∧ be.Mode ≠ ModeHTTPS ∧ be.Mode ≠ ModeLocal then
    .error "backend.Addresses: backend must have at least one address"
  else if 0 < be.Addresses.length ∧
      (be.Mode = ModeConsole ∨ be.Mode = ModeLocal) then
    .error "backend.Addresses: Addresses should be empty when Mode is CONSOLE or LOCAL"
  else if be.BWLimit ≠ "" ∧ (bwNames.contains be.BWLimit) = false then
    .error ("backend.BWLimit: undefined name " ++ be.BWLimit)
  else
  match checkClientAuthSection env pkis be.ClientAuth with
  | .error e => .error e
  | .ok _ =>
  match checkSSOSection env idps be.SSO with
  | .error e => .error e
  | .ok _ =>
  match checkRootCAList env pkis be.ForwardRootCAs with
  | .error e => .error e
  | .ok _ =>
  let be :=
    if be.ForwardTimeout = (0 : Int) then
      { be with ForwardTimeout := 30000000000 }
    else be
  match checkIPsSection env be.AllowIPs with
  | .error e => .error e
  | .ok _ =>
  match checkIPsSection env be.DenyIPs with
  | .error e => .error e
  | .ok _ =>
  let be := { be with ForwardServerName := idnaToASCII be.ForwardServerName }
  let be :=
    if be.ForwardRateLimit = (0 : Int) then { be with ForwardRateLimit := 5 }
    else be
  match validateProxyProtoVersion be.ProxyProtocolVersion with
  | .error e => .error e
  | .ok ver =>
  let be := { be with proxyProtocolVersion := ver }
  if 0 < be.PathOverrides.length ∧ be.Mode ≠ ModeHTTP ∧ be.Mode ≠ ModeHTTPS
      then
    .error "backend.PathOverrides is only valid in HTTP or HTTPS mode"
  else
  match checkPathOverrides env pkis be.Mode be.PathOverrides with
  | .error e => .error e
  | .ok pos => .ok { be with PathOverrides := pos }

def checkBackendDetails (env : Env) (pkis bwNames idps : List String) :
    List Backend → Except String (List Backend)
  | [] => .ok []
  | be :: rest =>
      match checkBackendDetail env pkis bwNames idps be with
      | .error e => .error e
      | .ok be2 =>
      match checkBackendDetails env pkis bwNames idps rest with
      | .error e => .error e
      | .ok rest2 => .ok (be2 :: rest2)

/-- `Config.Check`: validate, normalize and default the configuration in
source order; on success return the updated configuration (Go mutates it in
place), after `os.MkdirAll(cfg.CacheDir, 0o700)`.  Error messages are
abbreviated; only the error/success distinction is relied upon. -/
def Check (env : Env) (cfg : Config) : Except String Config :=
  match checkTopFields env cfg.CacheDir cfg.TLSAddr cfg.MaxOpen
      cfg.EnableQUIC with
  | .error e => .error e
  | .ok (cacheDir, tlsAddr, maxOpen, enableQUIC) =>
  let defaultServerName := idnaToASCII cfg.DefaultServerName
  match checkOIDC env [] cfg.OIDCProviders with
  | .error e => .error e
  | .ok (oidc, seen1) =>
  match checkSAML env seen1 cfg.SAMLProviders with
  | .error e => .error e
  | .ok (saml, seen2) =>
  match checkPasskey env seen2 cfg.PasskeyProviders with
  | .error e => .error e
  | .ok (passkey, idps) =>
  match checkBackendModes enableQUIC cfg.Backends with
  | .error e => .error e
  | .ok bes1 =>
  match checkServerNamesLoop [] [] bes1 with
  | .error e => .error e
  | .ok (bes2, sns, _keys) =>
  match checkPKIs env sns [] cfg.PKI with
  | .error e => .error e
  | .ok pkis =>
  match checkBWLimits [] cfg.BWLimits with
  | .error e => .error e
  | .ok bwNames =>
  match checkBackendDetails env pkis bwNames idps bes2 with
  | .error e => .error e
  | .ok bes3 =>
  if env.mkdirOk then
    .ok { cfg with
      Definitions := none, CacheDir := cacheDir, TLSAddr := tlsAddr,
      MaxOpen := maxOpen, EnableQUIC := some enableQUIC,
      DefaultServerName := defaultServerName,
      OIDCProviders := oidc, SAMLProviders := saml,
      PasskeyProviders := passkey, Backends := bes3 }
  else
    .error "MkdirAll failed"

/-- The `(server_name, alpn_id)` pairs of one name list with one ALPN
list. -/
def pairsOf (names alpn : List String) : List beKey :=
  names.flatMap (fun sn => alpn.map (fun p => ⟨sn, p⟩))

/-- The `(server_name, alpn_id)` product over a list of backends, in
traversal order. -/
def productPairs (bes : List Backend) : List beKey :=
  bes.flatMap (fun be => pairsOf be.ServerNames (alpnOf be))

/-- The `(server_name, alpn list)` occurrences over a list of backends, in
traversal order. -/
def nameOccs (bes : List Backend) : List (String × List String) :=
  bes.flatMap (fun be => be.ServerNames.map (fun sn => (sn, alpnOf be)))

/-- Concrete validator environment for witnesses and counterexamples. -/
def env0 : Env :=
  { userCacheDir := some "/home/user/.cache", openFileLimit := some 1024,
    quicIsEnabled := false, loadCertsOk := fun _ => false,
    parseCIDROk := fun _ => false, urlParseOk := fun _ => true,
    regexpOk := fun _ => true, hostOf := fun _ => none, mkdirOk := true }

/-- A backend that advertises an empty ALPN list on `a.example.com`. -/
def beEmptyALPN : Backend :=
  { ServerNames := ["a.example.com"], ALPNProtos := some [], Mode := "TCP",
    Addresses := ["192.168.1.1:443"] }

/-- A backend that advertises the default ALPN list on `a.example.com`. -/
def beDefaultALPN : Backend :=
  { ServerNames := ["a.example.com"], Mode := "TCP",
    Addresses := ["192.168.1.2:443"] }

/-- The order-dependent configuration: the empty-ALPN backend is listed
before another backend with the same server name. -/
def cfgC1 : Config :=
  { TLSAddr := ":10443", CacheDir := "/tmp/cache", MaxOpen := 100,
    Backends := [beEmptyALPN, beDefaultALPN] }

/-- A small valid configuration used as an idempotence witness. -/
def cfgW : Config :=
  { CacheDir := "/var/cache", MaxOpen := 50,
    Backends :=
      [{ ServerNames := ["W.example.com"], Mode := "tls",
         Addresses := ["10.1.1.1:443"], ProxyProtocolVersion := "v1" }] }

/-- The result of validating `cfgW` (evaluated form; `Check` is total on
this input). -/
def cfgW1 : Config :=
  match Check env0 cfgW with
  | .ok c => c
  | .error _ => cfgW

/-- The result of validating `cfgC1` (which `Check` accepts). -/
def cfgC1res : Config :=
  match Check env0 cfgC1 with
  | .ok c => c
  | .error _ => cfgC1

end TlsProxy

namespace TlsProxy

namespace Internal

theorem rotation_length (A : List String) :
    ∀ k next, (rotation A next k).length = k := by
  intro k
  induction k with
  | zero => intro next; rfl
  | succ k ih => intro next; simp [rotation, ih]

/-- Core characterization of the `Backend.dial` retry loop: with a positive
attempt budget and an in-range cursor, the attempts follow the rotation
order, the call returns the first successful address (or, if every attempt
fails, the error of the last address of the rotation), the cursor advances
by one modulo `len` per attempt, and at most `max` attempts are made. -/
theorem dialIter_spec (A : List String) (ok : String → Bool) :
    ∀ max next, 0 < max → next < A.length →
      (∀ a, (rotation A next max).find? ok = some a →
          (dialIter A ok next max).result = .conn a ∧
          (dialIter A ok next max).attempts =
            (rotation A next max).takeWhile (fun x => !(ok x)) ++ [a]) ∧
      ((rotation A next max).find? ok = none →
          (dialIter A ok next max).result =
            .err ((rotation A next max).getLast?.getD "") ∧
          (dialIter A ok next max).attempts = rotation A next max) ∧
      (dialIter A ok next max).next =
        (next + (dialIter A ok next max).attempts.length) % A.length ∧
      (dialIter A ok next max).attempts.length ≤ max := by
  intro max
  induction max with
  | zero => intro next h; exact absurd h (by omega)
  | succ m ih =>
      intro next hm hnext
      have hlen : 0 < A.length := Nat.lt_of_le_of_lt (Nat.zero_le _) hnext
      rw [dialIter]
      simp only [if_pos hnext, Nat.add_sub_cancel]
      by_cases hok : ok (A[next]?.getD "") = true
      · simp only [hok, if_true, rotation]
        refine ⟨?_, ?_, by simp, by simp⟩
        · intro a ha
          rw [List.find?_cons_of_pos _ hok, Option.some.injEq] at ha
          subst ha
          exact ⟨rfl, by simp [List.takeWhile_cons, hok]⟩
        · intro ha
          rw [List.find?_cons_of_pos _ hok] at ha
          exact absurd ha (by simp)
      · have hokf : ok (A[next]?.getD "") = false := by
          simpa using hok
        have hfneg : ∀ l, List.find? ok (A[next]?.getD "" :: l) =
            List.find? ok l :=
          fun l => List.find?_cons_of_neg l (by simp [hokf])
        simp only [hokf, Bool.false_eq_true, if_false]
        by_cases hm0 : 0 < m
        · have hnext2 : (next + 1) % A.length < A.length := Nat.mod_lt _ hlen
          obtain ⟨IHsome, IHnone, IHnext, IHlen⟩ :=
            ih ((next + 1) % A.length) hm0 hnext2
          rw [if_pos hm0]
          refine ⟨?_, ?_, ?_, ?_⟩
          · intro a ha
            simp only [rotation] at ha
            rw [hfneg] at ha
            obtain ⟨h1, h2⟩ := IHsome a ha
            refine ⟨h1, ?_⟩
            simp [rotation, List.takeWhile_cons, hokf, h2]
          · intro ha
            simp only [rotation] at ha
            rw [hfneg] at ha
            obtain ⟨h1, h2⟩ := IHnone ha
            refine ⟨?_, ?_⟩
            · obtain ⟨k, rfl⟩ : ∃ k, m = k + 1 := ⟨m - 1, by omega⟩
              rw [h1]
              simp [rotation]
            · simp [rotation, h2]
          · simp only [List.length_cons, IHnext]
            rw [Nat.mod_add_mod]
            congr 1
            omega
          · simp only [List.length_cons]
            omega
        · have hm00 : m = 0 := by omega
          subst hm00
          rw [if_neg (by omega)]
          refine ⟨?_, ?_, by simp, by simp⟩
          · intro a ha
            simp only [rotation] at ha
            rw [hfneg] at ha
            simp at ha
          · intro _
            simp [rotation]

/-- C3: a single `Backend.dial` call with `N >= 1` addresses and an
in-range cursor attempts the addresses in round-robin order starting at the
cursor (the `rotation`), advances the cursor by one modulo `N` per attempt,
returns the first successfully dialed address, tries each address position
at most once (at most `N` attempts), and after exactly `N` consecutive
failures returns the error of the last address tried. -/
theorem dial_round_robin (A : List String) (ok : String → Bool) (next : Nat)
    (hA : 0 < A.length) (hn : next < A.length) :
    (∀ a, (rotation A next A.length).find? ok = some a →
        (dial A ok next).result = .conn a ∧
        (dial A ok next).attempts =
          (rotation A next A.length).takeWhile (fun x => !(ok x)) ++ [a]) ∧
    ((rotation A next A.length).find? ok = none →
        (dial A ok next).result =
          .err ((rotation A next A.length).getLast?.getD "") ∧
        (dial A ok next).attempts = rotation A next A.length ∧
        (dial A ok next).attempts.length = A.length) ∧
    (dial A ok next).next =
      (next + (dial A ok next).attempts.length) % A.length ∧
    (dial A ok next).attempts.length ≤ A.length := by
  obtain ⟨hsome, hnone, hnexteq, hlen⟩ := dialIter_spec A ok A.length next hA hn
  rw [dial]
  refine ⟨hsome, ?_, hnexteq, hlen⟩
  intro ha
  obtain ⟨h1, h2⟩ := hnone ha
  exact ⟨h1, h2, by rw [h2, rotation_length]⟩

/-- Witness for `dial_round_robin`: three addresses, only the third is
reachable, cursor at 0. -/
theorem dial_round_robin_witness :
    (∀ a, (rotation addrsW 0 addrsW.length).find? okW = some a →
        (dial addrsW okW 0).result = .conn a ∧
        (dial addrsW okW 0).attempts =
          (rotation addrsW 0 addrsW.length).takeWhile (fun x => !(okW x)) ++
            [a]) ∧
    ((rotation addrsW 0 addrsW.length).find? okW = none →
        (dial addrsW okW 0).result =
          .err ((rotation addrsW 0 addrsW.length).getLast?.getD "") ∧
        (dial addrsW okW 0).attempts = rotation addrsW 0 addrsW.length ∧
        (dial addrsW okW 0).attempts.length = addrsW.length) ∧
    (dial addrsW okW 0).next =
      (0 + (dial addrsW okW 0).attempts.length) % addrsW.length ∧
    (dial addrsW okW 0).attempts.length ≤ addrsW.length :=
  dial_round_robin addrsW okW 0 (by decide) (by decide)

/-- C2 (amended): every `handleConnection` run increments `num_open` on
entry and decrements it exactly once on exit (net change zero on every
path); the connection is rejected before the handshake exactly when the
incremented value is greater than **or equal to** `max_open`
(`numOpen >= p.cfg.MaxOpen`), and the rejected path performs no handshake
and dials no backend. -/
theorem handleConnection_admission (MaxOpen : Int)
    (mapping : List (String × Backend)) (n0 : Int) (hs : Option String)
    (ok : String → Bool) :
    (handleConnection MaxOpen mapping n0 hs ok).numOpen = n0 ∧
    ((handleConnection MaxOpen mapping n0 hs ok).outcome = .tooManyOpen ↔
      MaxOpen ≤ n0 + 1) ∧
    ((handleConnection MaxOpen mapping n0 hs ok).outcome = .tooManyOpen →
      (handleConnection MaxOpen mapping n0 hs ok).didHandshake = false ∧
      (handleConnection MaxOpen mapping n0 hs ok).dialAttempts = []) := by
  simp only [handleConnection]
  by_cases h : n0 + 1 ≥ MaxOpen
  · rw [if_pos h]
    simp only [ge_iff_le] at h
    simp [h]
  · rw [if_neg h]
    simp only [ge_iff_le, not_le] at h
    cases hs with
    | none => simp; omega
    | some sni =>
        cases hbe : backend mapping sni with
        | error e => simp [hbe]; omega
        | ok be =>
            cases hd : (dial be.Addresses ok be.next).result <;>
              · simp [hbe, hd]
                omega

/-- Counterexample to C2 as stated: with `max_open = 2` and `num_open = 1`
(one connection just closed from the claimed full state `num_open =
max_open`), the next accept is rejected although the incremented value `2`
does not exceed `max_open = 2` — the code tests `numOpen >= MaxOpen`, so
the accept does not succeed as the claim requires. -/
theorem handleConnection_admission_cex :
    (handleConnection 2 [] 1 (some "a.test") (fun _ => true)).outcome =
      Outcome.tooManyOpen ∧
    ¬ ((1 : Int) + 1 > 2) := by
  constructor
  · rfl
  · decide

/-- C4: a server name absent from the installed mapping makes
`Proxy.backend` return an error, the `GetConfigForClient` callback fail
(which fails the TLS handshake for that SNI), and — if resolution happens
after the handshake — makes the handler close the client connection without
dialing any upstream. -/
theorem backend_unknown_sni (mapping : List (String × Backend)) (sni : String)
    (h : mapping.lookup sni = none) (MaxOpen : Int) (n0 : Int)
    (ok : String → Bool) (hcap : n0 + 1 < MaxOpen) :
    backend mapping sni = .error ("unexpected SNI: " ++ sni) ∧
    getConfigForClient mapping sni = .error ("unexpected SNI: " ++ sni) ∧
    (handleConnection MaxOpen mapping n0 (some sni) ok).outcome =
      .unknownSNI sni ∧
    (handleConnection MaxOpen mapping n0 (some sni) ok).dialAttempts = [] := by
  have hb : backend mapping sni = .error ("unexpected SNI: " ++ sni) := by
    simp [backend, h]
  refine ⟨hb, ?_, ?_, ?_⟩
  · simp [getConfigForClient, hb]
  · simp only [handleConnection]
    rw [if_neg (by omega)]
    simp [hb]
  · simp only [handleConnection]
    rw [if_neg (by omega)]
    simp [hb]

/-- Witness for `backend_unknown_sni`: empty mapping, SNI `b.test`. -/
theorem backend_unknown_sni_witness :
    backend [] "b.test" = .error ("unexpected SNI: " ++ "b.test") ∧
    getConfigForClient [] "b.test" =
      .error ("unexpected SNI: " ++ "b.test") ∧
    (handleConnection 10 [] 0 (some "b.test") (fun _ => true)).outcome =
      .unknownSNI "b.test" ∧
    (handleConnection 10 [] 0 (some "b.test") (fun _ => true)).dialAttempts =
      [] :=
  backend_unknown_sni [] "b.test" rfl 10 0 (fun _ => true) (by decide)

/-- C5: calling `Proxy.Reconfigure` with a configuration whose serialized
form equals that of the stored configuration returns `nil` and leaves the
proxy state — both the published server-name mapping and the stored
configuration — unchanged. -/
theorem reconfigure_noop (marshal : Option Config → String)
    (loadCerts : String → Option Unit) (st : ProxyState) (cfg : Config)
    (h : marshal st.cfg = marshal (some cfg)) :
    reconfigure marshal loadCerts st cfg = .ok st := by
  simp [reconfigure, h]

/-- Witness for `reconfigure_noop`: a constant serializer makes the stored
and the new configuration serialize identically. -/
theorem reconfigure_noop_witness :
    reconfigure (fun _ => "") (fun _ => none) ⟨none, []⟩ cfgInternalW =
      .ok ⟨none, []⟩ :=
  reconfigure_noop (fun _ => "") (fun _ => none) ⟨none, []⟩ cfgInternalW rfl

/-- C8: `forward(out, in)` returns `nil` exactly when the copy ended at
end-of-stream; in that case it propagates only the half-close (`CloseWrite`
on `out`, `CloseRead` on `in`, both endpoints supporting it) and fully
closes neither endpoint; when the copy fails, it fully closes both
endpoints and returns that error. -/
theorem forward_halfclose (out inn : Conn) (r : Option String)
    (hw : out.hasCloseWrite = true) (hr : inn.hasCloseRead = true) :
    ((forward out inn r).2 = none ↔ r = none) ∧
    (r = none →
      (forward out inn r).1 = [FwdAction.closeWriteOut, FwdAction.closeReadIn] ∧
      FwdAction.closeOut ∉ (forward out inn r).1 ∧
      FwdAction.closeIn ∉ (forward out inn r).1) ∧
    (∀ e, r = some e →
      (forward out inn r).1 = [FwdAction.closeOut, FwdAction.closeIn] ∧
      (forward out inn r).2 = some e) := by
  cases r <;> simp [forward, hw, hr]

/-- Witness for `forward_halfclose`: two TCP-like endpoints, clean EOF. -/
theorem forward_halfclose_witness :
    ((forward ⟨true, true⟩ ⟨true, true⟩ none).2 = none ↔
      (none : Option String) = none) ∧
    ((none : Option String) = none →
      (forward ⟨true, true⟩ ⟨true, true⟩ none).1 =
        [FwdAction.closeWriteOut, FwdAction.closeReadIn] ∧
      FwdAction.closeOut ∉ (forward ⟨true, true⟩ ⟨true, true⟩ none).1 ∧
      FwdAction.closeIn ∉ (forward ⟨true, true⟩ ⟨true, true⟩ none).1) ∧
    (∀ e, (none : Option String) = some e →
      (forward ⟨true, true⟩ ⟨true, true⟩ none).1 =
        [FwdAction.closeOut, FwdAction.closeIn] ∧
      (forward ⟨true, true⟩ ⟨true, true⟩ none).2 = some e) :=
  forward_halfclose ⟨true, true⟩ ⟨true, true⟩ none rfl rfl

theorem lookup_insertServerNames (be : Backend) (sni : String) :
    ∀ (names : List String) (m : List (String × Backend)),
      (((names.foldl (fun m sn => mapSet m sn be) m).lookup sni).isSome ↔
        ((m.lookup sni).isSome ∨ sni ∈ names)) := by
  intro names
  induction names with
  | nil => intro m; simp
  | cons sn rest ih =>
      intro m
      rw [List.foldl_cons]
      rw [ih]
      by_cases h : sni = sn
      · subst h
        simp [mapSet, List.lookup]
      · have hb : (sni == sn) = false := by
          simp [h]
        simp [mapSet, List.lookup, hb, h]

theorem lookup_buildMapping (sni : String) :
    ∀ (bes : List Backend) (m : List (String × Backend)),
      (((bes.foldl (fun m be => insertServerNames be m) m).lookup sni).isSome
        ↔ ((m.lookup sni).isSome ∨ ∃ be ∈ bes, sni ∈ be.ServerNames)) := by
  intro bes
  induction bes with
  | nil => intro m; simp
  | cons be rest ih =>
      intro m
      rw [List.foldl_cons]
      rw [ih]
      rw [insertServerNames, lookup_insertServerNames]
      simp only [List.mem_cons]
      constructor
      · rintro (⟨h | h⟩ | ⟨b, hb, hsn⟩)
        · exact Or.inl h
        · exact Or.inr ⟨be, Or.inl rfl, h⟩
        · exact Or.inr ⟨b, Or.inr hb, hsn⟩
      · rintro (h | ⟨b, (rfl | hb), hsn⟩)
        · exact Or.inl (Or.inl h)
        · exact Or.inl (Or.inr hsn)
        · exact Or.inr ⟨b, hb, hsn⟩

/-- C6 (amended): `Proxy.backend` resolves a server name exactly when the
name, byte for byte, appears in some backend's (admission-normalized)
`ServerNames` list: lookup applies no normalization and no wildcard
expansion, so a case variant that differs from the stored ASCII form does
not resolve. -/
theorem backend_exact_match (bes : List Backend) (sni : String) :
    (∃ be, backend (buildMapping bes) sni = .ok be) ↔
    ∃ be ∈ bes, sni ∈ be.ServerNames := by
  have h := lookup_buildMapping sni bes []
  simp only [List.lookup, Option.isSome_none, Bool.false_eq_true, false_or]
    at h
  rw [← h]
  simp only [buildMapping, backend]
  cases hx : (bes.foldl (fun m be => insertServerNames be m) []).lookup sni
    with
  | none => simp [hx]
  | some be => simp [hx]

/-- Counterexample to C6 as stated: the mapping installed for a backend
with normalized name `example.com` does not resolve the case variant
`EXAMPLE.COM` (whose IDNA-ASCII form is the installed name): `Proxy.backend`
matches by exact byte equality, not case-insensitively. -/
theorem backend_case_variant_cex :
    idnaToASCII "EXAMPLE.COM" = "example.com" ∧
    backend (buildMapping [beC6]) "example.com" = .ok beC6 ∧
    backend (buildMapping [beC6]) "EXAMPLE.COM" =
      .error ("unexpected SNI: " ++ "EXAMPLE.COM") := by
  refine ⟨?_, ?_, ?_⟩ <;> rfl

end Internal

/-- C7: `validateProxyProtoVersion` maps `""`, `v1`, `v2` to bytes 0, 1, 2
and rejects strings that do not start with `v` followed by a number; but,
contrary to the claim (and to the code's own error message `expected v1 or
v2`), it accepts every `v<int8>` string: `v3` yields byte 3 and `v-1`
yields byte 255. -/
theorem validateProxyProtoVersion_bug :
    validateProxyProtoVersion "" = .ok 0 ∧
    validateProxyProtoVersion "v1" = .ok 1 ∧
    validateProxyProtoVersion "v2" = .ok 2 ∧
    validateProxyProtoVersion "v3" = .ok 3 ∧
    validateProxyProtoVersion "v-1" = .ok 255 ∧
    validateProxyProtoVersion "x1" =
      .error "invalid value x1, expected v1 or v2" := by
  refine ⟨?_, ?_, ?_, ?_, ?_, ?_⟩ <;> rfl

/-- Counterexample to C1 as stated: `beEmptyALPN` advertises an empty ALPN
list and lists the same server name as `beDefaultALPN`, yet `Check` accepts
the configuration: the empty-ALPN rule is only enforced against names
registered by earlier-traversed backends, and the empty-ALPN backend comes
first here. -/
theorem check_unique_routing_cex :
    alpnOf beEmptyALPN = [] ∧
    beEmptyALPN.ServerNames = ["a.example.com"] ∧
    beDefaultALPN.ServerNames = ["a.example.com"] ∧
    cfgC1.Backends = [beEmptyALPN, beDefaultALPN] ∧
    (Check env0 cfgC1).isOk = true := by
  refine ⟨rfl, rfl, rfl, rfl, rfl⟩

/-- Inversion of a successful `Config.Check` down to its backend phases. -/
theorem Check_inv (env : Env) (cfg cfg2 : Config)
    (h : Check env cfg = .ok cfg2) :
    ∃ enableQUIC bes1 bes2 sns ks pkis bwNames idps bes3,
      checkBackendModes enableQUIC cfg.Backends = .ok bes1 ∧
      checkServerNamesLoop [] [] bes1 = .ok (bes2, sns, ks) ∧
      checkBackendDetails env pkis bwNames idps bes2 = .ok bes3 ∧
      cfg2.Backends = bes3 := by
  rw [Check] at h
  repeat'
    first
    | exact Except.noConfusion h
    | split at h
  injection h with h
  subst h
  exact ⟨_, _, _, _, _, _, _, _, _, by assumption, by assumption,
    by assumption, by simp⟩

/-- A successful `checkBackendDetail` leaves the routing-relevant fields of
the backend unchanged and enforces the address-presence rule for dialing
modes. -/
theorem checkBackendDetail_preserves (env : Env)
    (pkis bwNames idps : List String) (be be2 : Backend)
    (h : checkBackendDetail env pkis bwNames idps be = .ok be2) :
    be2.Mode = be.Mode ∧ be2.Addresses = be.Addresses ∧
    be2.ServerNames = be.ServerNames ∧ be2.ALPNProtos = be.ALPNProtos ∧
    be2.ClientAuth = be.ClientAuth ∧ be2.BackendProto = be.BackendProto ∧
    be2.ServerCloseEndsConnection = be.ServerCloseEndsConnection ∧
    be2.ClientCloseEndsConnection = be.ClientCloseEndsConnection ∧
    (¬(be.Mode = ModeConsole ∨ be.Mode = ModeHTTP ∨ be.Mode = ModeHTTPS ∨
        be.Mode = ModeLocal) → be.Addresses ≠ []) := by
  rw [checkBackendDetail] at h
  repeat'
    first
    | exact Except.noConfusion h
    | split at h
    | simp only [] at h
  all_goals
    try injection h with h
  all_goals
    subst h
    refine ⟨by simp, by simp, by simp, by simp, by simp, by simp, by simp,
      by simp, ?_⟩
    intro hmode hnil
    push_neg at hmode
    obtain ⟨m1, m2, m3, m4⟩ := hmode
    have hg : ¬(be.Addresses.length = 0 ∧ be.Mode ≠ ModeConsole ∧
        be.Mode ≠ ModeHTTP ∧ be.Mode ≠ ModeHTTPS ∧ be.Mode ≠ ModeLocal) := by
      assumption
    exact absurd ⟨by simp [hnil], m1, m2, m3, m4⟩ hg

/-- List version of `checkBackendDetail_preserves`. -/
theorem checkBackendDetails_preserves (env : Env)
    (pkis bwNames idps : List String) :
    ∀ (bes out : List Backend),
      checkBackendDetails env pkis bwNames idps bes = .ok out →
      List.Forall₂ (fun be be2 =>
        be2.Mode = be.Mode ∧ be2.Addresses = be.Addresses ∧
        be2.ServerNames = be.ServerNames ∧ be2.ALPNProtos = be.ALPNProtos ∧
        be2.ClientAuth = be.ClientAuth ∧ be2.BackendProto = be.BackendProto ∧
        be2.ServerCloseEndsConnection = be.ServerCloseEndsConnection ∧
        be2.ClientCloseEndsConnection = be.ClientCloseEndsConnection ∧
        (¬(be.Mode = ModeConsole ∨ be.Mode = ModeHTTP ∨ be.Mode = ModeHTTPS ∨
            be.Mode = ModeLocal) → be.Addresses ≠ [])) bes out := by
  intro bes
  induction bes with
  | nil =>
      intro out h
      rw [checkBackendDetails] at h
      injection h with h
      subst h
      exact List.Forall₂.nil
  | cons be rest ih =>
      intro out h
      rw [checkBackendDetails] at h
      cases hbe : checkBackendDetail env pkis bwNames idps be with
      | error e => rw [hbe] at h; exact Except.noConfusion h
      | ok be2 =>
          rw [hbe] at h
          cases hrest : checkBackendDetails env pkis bwNames idps rest with
          | error e => rw [hrest] at h; exact Except.noConfusion h
          | ok rest2 =>
              rw [hrest] at h
              simp only [Except.ok.injEq] at h
              subst h
              exact List.Forall₂.cons
                (checkBackendDetail_preserves env pkis bwNames idps be be2
                  hbe)
                (ih rest2 hrest)

theorem forall₂_mem_right {α β : Type} {R : α → β → Prop} :
    ∀ {l1 : List α} {l2 : List β}, List.Forall₂ R l1 l2 →
      ∀ b ∈ l2, ∃ a ∈ l1, R a b := by
  intro l1 l2 hf
  induction hf with
  | nil => intro b hb; simp at hb
  | cons hr hrest ih =>
      intro b hb
      rcases List.mem_cons.mp hb with rfl | hb
      · exact ⟨_, List.mem_cons_self _ _, hr⟩
      · obtain ⟨a, ha, hR⟩ := ih b hb
        exact ⟨a, List.mem_cons_of_mem _ ha, hR⟩

/-- Backends of a validated configuration that are in a dialing mode have a
non-empty address list. -/
theorem check_addresses_nonempty (env : Env) (cfg cfg2 : Config)
    (h : Check env cfg = .ok cfg2) :
    ∀ be2 ∈ cfg2.Backends,
      ¬(be2.Mode = ModeConsole ∨ be2.Mode = ModeHTTP ∨ be2.Mode = ModeHTTPS ∨
        be2.Mode = ModeLocal) → be2.Addresses ≠ [] := by
  obtain ⟨q, bes1, bes2, sns, ks, pkis, bwNames, idps, bes3, _, _, hdet, hb⟩ :=
    Check_inv env cfg cfg2 h
  rw [hb]
  have hf := checkBackendDetails_preserves env pkis bwNames idps bes2 bes3 hdet
  intro be2 hmem hmode
  obtain ⟨be, _, hrel⟩ := forall₂_mem_right hf be2 hmem
  obtain ⟨hM, hA, -, -, -, -, -, -, hguard⟩ := hrel
  rw [hA]
  exact hguard (by rw [← hM]; exact hmode)

/-- C9: with the precondition `len(Addresses) >= 1` — guaranteed by
`Config.Check` for every backend mode that dials — `Backend.dial` keeps the
cursor invariant `0 <= next < len(Addresses)`, never indexes out of bounds,
and its retry loop makes at most `len(Addresses)` attempts; on an empty
address list the very first index access is out of bounds (a runtime
panic), so the precondition is required. -/
theorem dial_safety :
    (∀ (A : List String) (ok : String → Bool) (next : Nat),
      0 < A.length → next < A.length →
      (Internal.dial A ok next).result ≠ .oob ∧
      (Internal.dial A ok next).next < A.length ∧
      (Internal.dial A ok next).attempts.length ≤ A.length) ∧
    (∀ (ok : String → Bool) (next : Nat),
      (Internal.dial [] ok next).result = .oob) ∧
    (∀ (env : Env) (cfg cfg2 : Config), Check env cfg = .ok cfg2 →
      ∀ be2 ∈ cfg2.Backends,
        ¬(be2.Mode = ModeConsole ∨ be2.Mode = ModeHTTP ∨
          be2.Mode = ModeHTTPS ∨ be2.Mode = ModeLocal) →
        be2.Addresses ≠ []) := by
  refine ⟨?_, ?_, check_addresses_nonempty⟩
  · intro A ok next hA hn
    obtain ⟨hsome, hnone, hnexteq, hlen⟩ :=
      Internal.dialIter_spec A ok A.length next hA hn
    rw [Internal.dial]
    refine ⟨?_, ?_, hlen⟩
    · cases hf : (Internal.rotation A next A.length).find? ok with
      | some a =>
          rw [(hsome a hf).1]
          exact fun hc => Internal.DialResult.noConfusion hc
      | none =>
          rw [(hnone hf).1]
          exact fun hc => Internal.DialResult.noConfusion hc
    · rw [hnexteq]
      exact Nat.mod_lt _ hA
  · intro ok next
    rw [Internal.dial, Internal.dialIter]
    simp

/-- Witness for `dial_safety`: the bounded part at a concrete address list,
and the `Check` part at the validated `cfgW`. -/
theorem dial_safety_witness :
    ((Internal.dial Internal.addrsW Internal.okW 0).result ≠ .oob ∧
      (Internal.dial Internal.addrsW Internal.okW 0).next <
        Internal.addrsW.length ∧
      (Internal.dial Internal.addrsW Internal.okW 0).attempts.length ≤
        Internal.addrsW.length) ∧
    (∀ be2 ∈ cfgW1.Backends,
      ¬(be2.Mode = ModeConsole ∨ be2.Mode = ModeHTTP ∨ be2.Mode = ModeHTTPS ∨
        be2.Mode = ModeLocal) → be2.Addresses ≠ []) :=
  ⟨dial_safety.1 Internal.addrsW Internal.okW 0 (by decide) (by decide),
   dial_safety.2.2 env0 cfgW cfgW1 rfl⟩

theorem pairwise_of_all {α : Type} {R : α → α → Prop} (h : ∀ a b, R a b) :
    ∀ l : List α, l.Pairwise R := by
  intro l
  induction l with
  | nil => exact List.Pairwise.nil
  | cons a l ih => exact List.Pairwise.cons (fun b _ => h a b) ih

theorem lookup_append_isSome {β : Type} (x : String) :
    ∀ (l1 l2 : List (String × β)),
      (((l1 ++ l2).lookup x).isSome = true ↔
        ((l1.lookup x).isSome = true ∨ (l2.lookup x).isSome = true)) := by
  intro l1 l2
  induction l1 with
  | nil => simp [List.lookup]
  | cons kv l1 ih =>
      obtain ⟨k, v⟩ := kv
      by_cases hx : x = k
      · subst hx
        simp [List.lookup]
      · have hb : (x == k) = false := by simp [hx]
        simp [List.lookup, hb, ih]

theorem lookup_singleton_isSome {β : Type} (x k : String) (v : β) :
    (([(k, v)].lookup x).isSome = true) ↔ x = k := by
  by_cases hx : x = k
  · subst hx
    simp [List.lookup]
  · have hb : (x == k) = false := by simp [hx]
    simp [List.lookup, hb, hx]

theorem addProtoKeys_spec (sn : String) :
    ∀ (ps : List String) (ks ks2 : List beKey),
      addProtoKeys sn ps ks = .ok ks2 →
      ks2 = (ps.map (fun p => beKey.mk sn p)).reverse ++ ks ∧
      (ks.Nodup → ks2.Nodup) := by
  intro ps
  induction ps with
  | nil =>
      intro ks ks2 h
      rw [addProtoKeys] at h
      injection h with h
      subst h
      simp
  | cons p ps ih =>
      intro ks ks2 h
      rw [addProtoKeys] at h
      split at h
      · exact Except.noConfusion h
      · rename_i hc
        obtain ⟨h1, h2⟩ := ih (⟨sn, p⟩ :: ks) ks2 h
        refine ⟨?_, ?_⟩
        · rw [h1]
          simp
        · intro hnd
          apply h2
          refine List.nodup_cons.mpr ⟨?_, hnd⟩
          simpa using hc

/-- Specification of the inner server-name loop of `Config.Check` for one
backend: the names are normalized, the `(sn, proto)` keys of this backend
are pushed (in reverse) onto the key list without creating duplicates, the
`serverNames` table gains exactly this backend's names, and — when the
backend's ALPN list is empty — its (normalized) names are pairwise distinct
and absent from the incoming table. -/
theorem checkBackendServerNames_spec (mode : String) (alpn : List String) :
    ∀ (names : List String) (sns : List (String × String)) (ks : List beKey)
      (names2 : List String) (sns2 : List (String × String))
      (ks2 : List beKey),
      checkBackendServerNames mode alpn names sns ks =
        .ok (names2, sns2, ks2) →
      names2 = names.map idnaToASCII ∧
      ks2 = (pairsOf names2 alpn).reverse ++ ks ∧
      (ks.Nodup → ks2.Nodup) ∧
      (∀ x, ((sns2.lookup x).isSome = true ↔
        ((sns.lookup x).isSome = true ∨ x ∈ names2))) ∧
      (alpn = [] → names2.Nodup ∧
        ∀ sn ∈ names2, (sns.lookup sn).isSome = false) := by
  intro names
  induction names with
  | nil =>
      intro sns ks names2 sns2 ks2 h
      rw [checkBackendServerNames] at h
      simp only [Except.ok.injEq, Prod.mk.injEq] at h
      obtain ⟨h1, h2, h3⟩ := h
      subst h1; subst h2; subst h3
      simp [pairsOf]
  | cons sn0 rest ih =>
      intro sns ks names2 sns2 ks2 h
      simp only [checkBackendServerNames] at h
      by_cases hp : ((sns.lookup (idnaToASCII sn0)).isSome) = true
      · rw [if_pos hp] at h
        by_cases hl : alpn.length = 0
        · rw [if_pos hl] at h
          exact Except.noConfusion h
        · rw [if_neg hl] at h
          simp only [] at h
          cases hA : addProtoKeys (idnaToASCII sn0) alpn ks with
          | error e => rw [hA] at h; exact Except.noConfusion h
          | ok ksA =>
              rw [hA] at h
              simp only [] at h
              cases hR : checkBackendServerNames mode alpn rest sns ksA with
              | error e => rw [hR] at h; exact Except.noConfusion h
              | ok trip =>
                  obtain ⟨r2, s2, k2⟩ := trip
                  rw [hR] at h
                  simp only [Except.ok.injEq, Prod.mk.injEq] at h
                  obtain ⟨h1, h2, h3⟩ := h
                  subst h1; subst h2; subst h3
                  obtain ⟨IHn, IHk, IHnd, IHkeys, IHemp⟩ :=
                    ih sns ksA r2 s2 k2 hR
                  obtain ⟨hA1, hA2⟩ := addProtoKeys_spec _ alpn ks ksA hA
                  refine ⟨by simp [IHn], ?_, ?_, ?_, ?_⟩
                  · rw [IHk, hA1]
                    simp [pairsOf]
                  · intro hnd
                    exact IHnd (hA2 hnd)
                  · intro x
                    rw [IHkeys x]
                    constructor
                    · rintro (hx | hx)
                      · exact Or.inl hx
                      · exact Or.inr (List.mem_cons_of_mem _ hx)
                    · rintro (hx | hx)
                      · exact Or.inl hx
                      · rcases List.mem_cons.mp hx with rfl | hx
                        · exact Or.inl hp
                        · exact Or.inr hx
                  · intro he
                    exact absurd (by simp [he]) hl
      · rw [if_neg hp] at h
        simp only [] at h
        cases hA : addProtoKeys (idnaToASCII sn0) alpn ks with
        | error e => rw [hA] at h; exact Except.noConfusion h
        | ok ksA =>
            rw [hA] at h
            simp only [] at h
            cases hR : checkBackendServerNames mode alpn rest
                (sns ++ [(idnaToASCII sn0, mode)]) ksA with
            | error e => rw [hR] at h; exact Except.noConfusion h
            | ok trip =>
                obtain ⟨r2, s2, k2⟩ := trip
                rw [hR] at h
                simp only [Except.ok.injEq, Prod.mk.injEq] at h
                obtain ⟨h1, h2, h3⟩ := h
                subst h1; subst h2; subst h3
                obtain ⟨IHn, IHk, IHnd, IHkeys, IHemp⟩ :=
                  ih (sns ++ [(idnaToASCII sn0, mode)]) ksA r2 s2 k2 hR
                obtain ⟨hA1, hA2⟩ := addProtoKeys_spec _ alpn ks ksA hA
                have hps : (sns.lookup (idnaToASCII sn0)).isSome = false :=
                  Bool.eq_false_iff.mpr hp
                refine ⟨by simp [IHn], ?_, ?_, ?_, ?_⟩
                · rw [IHk, hA1]
                  simp [pairsOf]
                · intro hnd
                  exact IHnd (hA2 hnd)
                · intro x
                  rw [IHkeys x, lookup_append_isSome x sns _,
                    lookup_singleton_isSome x _ mode]
                  constructor
                  · rintro ((hx | hx) | hx)
                    · exact Or.inl hx
                    · exact Or.inr (by simp [hx])
                    · exact Or.inr (List.mem_cons_of_mem _ hx)
                  · rintro (hx | hx)
                    · exact Or.inl (Or.inl hx)
                    · rcases List.mem_cons.mp hx with rfl | hx
                      · exact Or.inl (Or.inr rfl)
                      · exact Or.inr hx
                · intro he
                  obtain ⟨hnd2, hfa⟩ := IHemp he
                  have hnotin : idnaToASCII sn0 ∉ r2 := by
                    intro hmem
                    have := hfa _ hmem
                    rw [Bool.eq_false_iff] at this
                    exact this ((lookup_append_isSome _ sns _).mpr
                      (Or.inr ((lookup_singleton_isSome _ _ mode).mpr rfl)))
                  refine ⟨List.nodup_cons.mpr ⟨hnotin, hnd2⟩, ?_⟩
                  intro y hy
                  rcases List.mem_cons.mp hy with rfl | hy
                  · exact hps
                  · have := hfa _ hy
                    rw [Bool.eq_false_iff] at this ⊢
                    intro hcon
                    exact this ((lookup_append_isSome _ sns _).mpr
                      (Or.inl hcon))

/-- Specification of the server-name loop of `Config.Check` over all
backends: names are normalized in place, the accumulated key list is
exactly the (reversed) `(sn, proto)` product and stays duplicate-free, the
`serverNames` table gains exactly the traversed names, and any
empty-ALPN occurrence has a name unseen at any earlier traversal point. -/
theorem checkServerNamesLoop_spec :
    ∀ (bes : List Backend) (sns : List (String × String)) (ks : List beKey)
      (bes2 : List Backend) (sns2 : List (String × String))
      (ks2 : List beKey),
      checkServerNamesLoop sns ks bes = .ok (bes2, sns2, ks2) →
      List.Forall₂ (fun be be2 =>
        be2 = { be with ServerNames := be.ServerNames.map idnaToASCII })
        bes bes2 ∧
      ks2 = (productPairs bes2).reverse ++ ks ∧
      (ks.Nodup → ks2.Nodup) ∧
      (∀ x, ((sns2.lookup x).isSome = true ↔
        ((sns.lookup x).isSome = true ∨ ∃ b ∈ bes2, x ∈ b.ServerNames))) ∧
      (nameOccs bes2).Pairwise (fun a b => b.2 = [] → a.1 ≠ b.1) ∧
      (∀ p ∈ nameOccs bes2, p.2 = [] →
        (sns.lookup p.1).isSome = false) := by
  intro bes
  induction bes with
  | nil =>
      intro sns ks bes2 sns2 ks2 h
      rw [checkServerNamesLoop] at h
      simp only [Except.ok.injEq, Prod.mk.injEq] at h
      obtain ⟨h1, h2, h3⟩ := h
      subst h1; subst h2; subst h3
      simp [productPairs, nameOccs]
  | cons be rest ih =>
      intro sns ks bes2 sns2 ks2 h
      rw [checkServerNamesLoop] at h
      cases hB : checkBackendServerNames be.Mode (alpnOf be) be.ServerNames
          sns ks with
      | error e => rw [hB] at h; exact Except.noConfusion h
      | ok trip =>
          obtain ⟨names2, snsM, ksM⟩ := trip
          rw [hB] at h
          simp only [] at h
          cases hL : checkServerNamesLoop snsM ksM rest with
          | error e => rw [hL] at h; exact Except.noConfusion h
          | ok trip2 =>
              obtain ⟨rest2, snsO, ksO⟩ := trip2
              rw [hL] at h
              simp only [Except.ok.injEq, Prod.mk.injEq] at h
              obtain ⟨h1, h2, h3⟩ := h
              subst h1; subst h2; subst h3
              obtain ⟨Bn, Bk, Bnd, Bkeys, Bemp⟩ :=
                checkBackendServerNames_spec be.Mode (alpnOf be)
                  be.ServerNames sns ks names2 snsM ksM hB
              obtain ⟨Lf, Lk, Lnd, Lkeys, Lpw, Locc⟩ :=
                ih snsM ksM rest2 snsO ksO hL
              have halpn : alpnOf { be with ServerNames := names2 } =
                  alpnOf be := rfl
              refine ⟨List.Forall₂.cons (by rw [Bn]) Lf, ?_, ?_, ?_, ?_, ?_⟩
              · rw [Lk, Bk]
                simp [productPairs, pairsOf, alpnOf]
              · intro hnd
                exact Lnd (Bnd hnd)
              · intro x
                rw [Lkeys x, Bkeys x]
                constructor
                · rintro ((hx | hx) | ⟨b, hb, hx⟩)
                  · exact Or.inl hx
                  · exact Or.inr ⟨_, List.mem_cons_self _ _, hx⟩
                  · exact Or.inr ⟨b, List.mem_cons_of_mem _ hb, hx⟩
                · rintro (hx | ⟨b, hb, hx⟩)
                  · exact Or.inl (Or.inl hx)
                  · rcases List.mem_cons.mp hb with rfl | hb
                    · exact Or.inl (Or.inr hx)
                    · exact Or.inr ⟨b, hb, hx⟩
              · show (nameOccs ({ be with ServerNames := names2 } :: rest2)
                  ).Pairwise _
                have hocc : nameOccs ({ be with ServerNames := names2 } ::
                    rest2) =
                    names2.map (fun sn => (sn, alpnOf be)) ++
                      nameOccs rest2 := by
                  simp [nameOccs, alpnOf]
                rw [hocc]
                rw [List.pairwise_append]
                refine ⟨?_, Lpw, ?_⟩
                · rw [List.pairwise_map]
                  by_cases ha : alpnOf be = []
                  · have hnd2 := (Bemp ha).1
                    refine List.Pairwise.imp ?_ hnd2
                    intro a b hne hx
                    exact hne
                  · exact pairwise_of_all (fun a b hc => absurd hc ha) _
                · intro a hamem b hbmem hb2
                  obtain ⟨sn, hsn, rfl⟩ := List.mem_map.mp hamem
                  have hninit := Locc b hbmem hb2
                  intro heq
                  have : (snsM.lookup b.1).isSome = true :=
                    (Bkeys b.1).mpr (Or.inr (by rw [← heq]; exact hsn))
                  rw [hninit] at this
                  exact Bool.noConfusion this
              · intro p hpmem hp2
                have hocc : nameOccs ({ be with ServerNames := names2 } ::
                    rest2) =
                    names2.map (fun sn => (sn, alpnOf be)) ++
                      nameOccs rest2 := by
                  simp [nameOccs, alpnOf]
                rw [hocc] at hpmem
                rcases List.mem_append.mp hpmem with hpm | hpm
                · obtain ⟨sn, hsn, rfl⟩ := List.mem_map.mp hpm
                  exact (Bemp hp2).2 sn hsn
                · have hM := Locc p hpm hp2
                  rw [Bool.eq_false_iff] at hM ⊢
                  intro hcon
                  exact hM ((Bkeys p.1).mpr (Or.inl hcon))

theorem productPairs_cons (be : Backend) (bes : List Backend) :
    productPairs (be :: bes) =
      pairsOf be.ServerNames (alpnOf be) ++ productPairs bes := by
  simp [productPairs]

theorem nameOccs_cons (be : Backend) (bes : List Backend) :
    nameOccs (be :: bes) =
      be.ServerNames.map (fun sn => (sn, alpnOf be)) ++ nameOccs bes := by
  simp [nameOccs]

/-- Transport of the routing product across field-preserving
transformations of the backend list. -/
theorem productPairs_congr :
    ∀ {bes2 bes3 : List Backend},
      List.Forall₂ (fun a b => b.ServerNames = a.ServerNames ∧
        b.ALPNProtos = a.ALPNProtos) bes2 bes3 →
      productPairs bes3 = productPairs bes2 ∧
        nameOccs bes3 = nameOccs bes2 := by
  intro bes2 bes3 hf
  induction hf with
  | nil => exact ⟨rfl, rfl⟩
  | cons hr hrest ih =>
      rename_i aa bb l1 l2
      obtain ⟨h1, h2⟩ := hr
      obtain ⟨ih1, ih2⟩ := ih
      have ha : alpnOf bb = alpnOf aa := by
        rw [alpnOf, alpnOf, h2]
      constructor
      · rw [productPairs_cons, productPairs_cons, ih1, h1, ha]
      · rw [nameOccs_cons, nameOccs_cons, ih2, h1, ha]

/-- C1 (amended): every configuration accepted by `Config.Check` has a
duplicate-free `(server name, ALPN protocol)` product over all backends,
and a backend with an empty ALPN list never repeats a server name that
occurred at any earlier traversal position; the converse direction of the
claim (an empty-ALPN backend listed before another backend with the same
name) is not enforced — see the counterexample. -/
theorem check_unique_routing (env : Env) (cfg cfg2 : Config)
    (h : Check env cfg = .ok cfg2) :
    (productPairs cfg2.Backends).Nodup ∧
    (nameOccs cfg2.Backends).Pairwise
      (fun a b => b.2 = [] → a.1 ≠ b.1) := by
  obtain ⟨q, bes1, bes2, sns, ks, pkis, bwNames, idps, bes3, hmodes, hloop,
    hdet, hb⟩ := Check_inv env cfg cfg2 h
  obtain ⟨Lf, Lk, Lnd, Lkeys, Lpw, Locc⟩ :=
    checkServerNamesLoop_spec bes1 [] [] bes2 sns ks hloop
  have hdp := checkBackendDetails_preserves env pkis bwNames idps bes2 bes3
    hdet
  obtain ⟨hprod, hoccs⟩ := productPairs_congr
    (List.Forall₂.imp (fun _ _ hrel => ⟨hrel.2.2.1, hrel.2.2.2.1⟩) hdp)
  rw [hb, hprod, hoccs]
  constructor
  · have hksnd : ks.Nodup := Lnd List.nodup_nil
    rw [Lk] at hksnd
    simp only [List.append_nil, List.nodup_reverse] at hksnd
    exact hksnd
  · exact Lpw

/-- Witness for `check_unique_routing`: the accepted configuration
`cfgC1`. -/
theorem check_unique_routing_witness :
    (productPairs cfgC1res.Backends).Nodup ∧
    (nameOccs cfgC1res.Backends).Pairwise
      (fun a b => b.2 = [] → a.1 ≠ b.1) :=
  check_unique_routing env0 cfgC1 cfgC1res rfl

theorem char_toNat_ofNat (n : Nat) (h : n.isValidChar) :
    (Char.ofNat n).toNat = n := by
  simp [Char.ofNat, Char.ofNatAux, h, Char.toNat]
  rfl

theorem asciiLower_idem (c : Char) :
    asciiLower (asciiLower c) = asciiLower c := by
  by_cases h : 65 ≤ c.toNat ∧ c.toNat ≤ 90
  · have h1 : asciiLower c = Char.ofNat (c.toNat + 32) := by
      rw [asciiLower, if_pos h]
    have hv : (c.toNat + 32).isValidChar := Or.inl (by omega)
    have h2 : (Char.ofNat (c.toNat + 32)).toNat = c.toNat + 32 :=
      char_toNat_ofNat _ hv
    rw [h1, asciiLower, if_neg (by rw [h2]; omega)]
  · have h1 : asciiLower c = c := by rw [asciiLower, if_neg h]
    rw [h1, h1]

theorem asciiUpper_idem (c : Char) :
    asciiUpper (asciiUpper c) = asciiUpper c := by
  by_cases h : 97 ≤ c.toNat ∧ c.toNat ≤ 122
  · have h1 : asciiUpper c = Char.ofNat (c.toNat - 32) := by
      rw [asciiUpper, if_pos h]
    have hv : (c.toNat - 32).isValidChar := Or.inl (by omega)
    have h2 : (Char.ofNat (c.toNat - 32)).toNat = c.toNat - 32 :=
      char_toNat_ofNat _ hv
    rw [h1, asciiUpper, if_neg (by rw [h2]; omega)]
  · have h1 : asciiUpper c = c := by rw [asciiUpper, if_neg h]
    rw [h1, h1]

theorem strToLower_idem (s : String) :
    strToLower (strToLower s) = strToLower s := by
  rw [strToLower, strToLower]
  congr 1
  show (s.data.map asciiLower).map asciiLower = s.data.map asciiLower
  rw [List.map_map]
  exact List.map_congr_left (fun a _ => by
    simp only [Function.comp_apply, asciiLower_idem])

theorem strToUpper_idem (s : String) :
    strToUpper (strToUpper s) = strToUpper s := by
  rw [strToUpper, strToUpper]
  congr 1
  show (s.data.map asciiUpper).map asciiUpper = s.data.map asciiUpper
  rw [List.map_map]
  exact List.map_congr_left (fun a _ => by
    simp only [Function.comp_apply, asciiUpper_idem])

theorem idnaToASCII_idem (s : String) :
    idnaToASCII (idnaToASCII s) = idnaToASCII s :=
  strToLower_idem s

theorem idnaToASCII_eq_empty (s : String) :
    idnaToASCII s = "" ↔ s = "" := by
  rw [idnaToASCII, strToLower, String.ext_iff, String.ext_iff]
  show s.data.map asciiLower = "".data ↔ s.data = "".data
  rw [show ("".data) = [] from rfl]
  simp [List.map_eq_nil_iff]

theorem checkDomain_idem (env : Env) (D url D2 : String)
    (h : checkDomain env D url = .ok D2) :
    checkDomain env D2 url = .ok D2 := by
  rw [checkDomain] at h
  by_cases hD : D = ""
  · rw [if_pos hD] at h
    injection h with h
    subst h
    rw [checkDomain, if_pos hD]
  · rw [if_neg hD] at h
    cases hh : env.hostOf url with
    | none => rw [hh] at h; exact Except.noConfusion h
    | some host =>
        rw [hh] at h
        simp only [] at h
        split at h
        · exact Except.noConfusion h
        · rename_i hsfx
          injection h with h
          subst h
          rw [checkDomain,
            if_neg (fun hc => hD ((idnaToASCII_eq_empty D).mp hc)), hh]
          simp only [idnaToASCII_idem]
          rw [if_neg hsfx]

theorem checkOIDC_idem (env : Env) :
    ∀ (l : List ConfigOIDC) (seen : List String) (l2 : List ConfigOIDC)
      (seen2 : List String),
      checkOIDC env seen l = .ok (l2, seen2) →
      checkOIDC env seen l2 = .ok (l2, seen2) := by
  intro l
  induction l with
  | nil =>
      intro seen l2 seen2 h
      rw [checkOIDC] at h
      simp only [Except.ok.injEq, Prod.mk.injEq] at h
      obtain ⟨h1, h2⟩ := h
      subst h1; subst h2
      rw [checkOIDC]
  | cons oi rest ih =>
      intro seen l2 seen2 h
      rw [checkOIDC] at h
      repeat' first | exact Except.noConfusion h | split at h
      rename_i g1 g2 g3 g4 g5 g6 g7 g8 g9 x1 domain hdom x2 rest2 seen2x hrec
      simp only [Except.ok.injEq, Prod.mk.injEq] at h
      obtain ⟨h1, h2⟩ := h
      subst h1; subst h2
      have hd2 := checkDomain_idem env oi.Domain oi.RedirectURL domain hdom
      have hr2 := ih (oi.Name :: seen) rest2 seen2x hrec
      rw [checkOIDC]
      simp only [g1, g2, g3, g4, g5, g6, g7, g8, g9, if_false, if_neg,
        hd2, hr2]
      simp

theorem checkSAML_idem (env : Env) :
    ∀ (l : List ConfigSAML) (seen : List String) (l2 : List ConfigSAML)
      (seen2 : List String),
      checkSAML env seen l = .ok (l2, seen2) →
      checkSAML env seen l2 = .ok (l2, seen2) := by
  intro l
  induction l with
  | nil =>
      intro seen l2 seen2 h
      rw [checkSAML] at h
      simp only [Except.ok.injEq, Prod.mk.injEq] at h
      obtain ⟨h1, h2⟩ := h
      subst h1; subst h2
      rw [checkSAML]
  | cons s rest ih =>
      intro seen l2 seen2 h
      rw [checkSAML] at h
      repeat' first | exact Except.noConfusion h | split at h
      rename_i g1 g2 g3 g4 g5 x1 domain hdom x2 rest2 seen2x hrec
      simp only [Except.ok.injEq, Prod.mk.injEq] at h
      obtain ⟨h1, h2⟩ := h
      subst h1; subst h2
      have hd2 := checkDomain_idem env s.Domain s.ACSURL domain hdom
      have hr2 := ih (s.Name :: seen) rest2 seen2x hrec
      rw [checkSAML]
      simp only [g1, g2, g3, g4, g5, if_false, if_neg, hd2, hr2]
      simp

theorem checkPasskey_idem (env : Env) :
    ∀ (l : List ConfigPasskey) (seen : List String) (l2 : List ConfigPasskey)
      (seen2 : List String),
      checkPasskey env seen l = .ok (l2, seen2) →
      checkPasskey env seen l2 = .ok (l2, seen2) := by
  intro l
  induction l with
  | nil =>
      intro seen l2 seen2 h
      rw [checkPasskey] at h
      simp only [Except.ok.injEq, Prod.mk.injEq] at h
      obtain ⟨h1, h2⟩ := h
      subst h1; subst h2
      rw [checkPasskey]
  | cons pp rest ih =>
      intro seen l2 seen2 h
      rw [checkPasskey] at h
      repeat' first | exact Except.noConfusion h | split at h
      rename_i g1 g2 g3 g4 x1 domain hdom x2 rest2 seen2x hrec
      simp only [Except.ok.injEq, Prod.mk.injEq] at h
      obtain ⟨h1, h2⟩ := h
      subst h1; subst h2
      have hd2 := checkDomain_idem env pp.Domain pp.Endpoint domain hdom
      have hr2 := ih (pp.Name :: seen) rest2 seen2x hrec
      rw [checkPasskey]
      simp only [g1, g2, g3, g4, if_false, if_neg, hd2, hr2]
      simp

theorem append_suffix_ne_empty (d : String) :
    d ++ "/tlsproxy/letsencrypt" ≠ "" := by
  intro hc
  have hl := congrArg String.length hc
  rw [String.length_append] at hl
  rw [show ("/tlsproxy/letsencrypt").length = 21 from rfl,
    show ("" : String).length = 0 from rfl] at hl
  omega

theorem checkTopFields_idem (env : Env) (cd ta : String) (mo : Int)
    (eq0 : Option Bool) (cd2 ta2 : String) (mo2 : Int) (eb : Bool)
    (h : checkTopFields env cd ta mo eq0 = .ok (cd2, ta2, mo2, eb)) :
    checkTopFields env cd2 ta2 mo2 (some eb) = .ok (cd2, ta2, mo2, eb) := by
  have hta2 : (if ta = "" then ":10443" else ta) ≠ "" := by
    split
    · decide
    · assumption
  rw [checkTopFields.eq_def] at h
  by_cases hcd : cd = ""
  case pos =>
    rw [if_pos hcd] at h
    cases hu : env.userCacheDir with
    | none => rw [hu] at h; exact Except.noConfusion h
    | some d =>
        rw [hu] at h
        simp only [] at h
        by_cases hmo : mo = (0 : Int)
        case pos =>
          rw [if_pos hmo] at h
          cases hof : env.openFileLimit with
          | none => rw [hof] at h; exact Except.noConfusion h
          | some n =>
              rw [hof] at h
              simp only [] at h
              cases eq0 with
              | none =>
                  simp only [] at h
                  split at h
                  · exact Except.noConfusion h
                  · rename_i hq
                    simp only [Except.ok.injEq, Prod.mk.injEq] at h
                    obtain ⟨h1, h2, h3, h4⟩ := h
                    subst h1; subst h2; subst h3; subst h4
                    rw [checkTopFields.eq_def,
                      if_neg (append_suffix_ne_empty d), if_neg hta2]
                    by_cases hz : Int.tdiv n 2 - 100 = 0
                    · rw [if_pos hz, hof]
                      simp only []
                      rw [if_neg hq]
                    · rw [if_neg hz]
                      simp only []
                      rw [if_neg hq]
              | some b =>
                  simp only [] at h
                  split at h
                  · exact Except.noConfusion h
                  · rename_i hq
                    simp only [Except.ok.injEq, Prod.mk.injEq] at h
                    obtain ⟨h1, h2, h3, h4⟩ := h
                    subst h1; subst h2; subst h3; subst h4
                    rw [checkTopFields.eq_def,
                      if_neg (append_suffix_ne_empty d), if_neg hta2]
                    by_cases hz : Int.tdiv n 2 - 100 = 0
                    · rw [if_pos hz, hof]
                      simp only []
                      rw [if_neg hq]
                    · rw [if_neg hz]
                      simp only []
                      rw [if_neg hq]
        case neg =>
          rw [if_neg hmo] at h
          simp only [] at h
          cases eq0 with
          | none =>
              simp only [] at h
              split at h
              · exact Except.noConfusion h
              · rename_i hq
                simp only [Except.ok.injEq, Prod.mk.injEq] at h
                obtain ⟨h1, h2, h3, h4⟩ := h
                subst h1; subst h2; subst h3; subst h4
                rw [checkTopFields.eq_def,
                  if_neg (append_suffix_ne_empty d), if_neg hta2,
                  if_neg hmo]
                simp only []
                rw [if_neg hq]
          | some b =>
              simp only [] at h
              split at h
              · exact Except.noConfusion h
              · rename_i hq
                simp only [Except.ok.injEq, Prod.mk.injEq] at h
                obtain ⟨h1, h2, h3, h4⟩ := h
                subst h1; subst h2; subst h3; subst h4
                rw [checkTopFields.eq_def,
                  if_neg (append_suffix_ne_empty d), if_neg hta2,
                  if_neg hmo]
                simp only []
                rw [if_neg hq]
  case neg =>
    rw [if_neg hcd] at h
    simp only [] at h
    by_cases hmo : mo = (0 : Int)
    case pos =>
      rw [if_pos hmo] at h
      cases hof : env.openFileLimit with
      | none => rw [hof] at h; exact Except.noConfusion h
      | some n =>
          rw [hof] at h
          simp only [] at h
          cases eq0 with
          | none =>
              simp only [] at h
              split at h
              · exact Except.noConfusion h
              · rename_i hq
                simp only [Except.ok.injEq, Prod.mk.injEq] at h
                obtain ⟨h1, h2, h3, h4⟩ := h
                subst h1; subst h2; subst h3; subst h4
                rw [checkTopFields.eq_def, if_neg hcd, if_neg hta2]
                by_cases hz : Int.tdiv n 2 - 100 = 0
                · rw [if_pos hz, hof]
                  simp only []
                  rw [if_neg hq]
                · rw [if_neg hz]
                  simp only []
                  rw [if_neg hq]
          | some b =>
              simp only [] at h
              split at h
              · exact Except.noConfusion h
              · rename_i hq
                simp only [Except.ok.injEq, Prod.mk.injEq] at h
                obtain ⟨h1, h2, h3, h4⟩ := h
                subst h1; subst h2; subst h3; subst h4
                rw [checkTopFields.eq_def, if_neg hcd, if_neg hta2]
                by_cases hz : Int.tdiv n 2 - 100 = 0
                · rw [if_pos hz, hof]
                  simp only []
                  rw [if_neg hq]
                · rw [if_neg hz]
                  simp only []
                  rw [if_neg hq]
    case neg =>
      rw [if_neg hmo] at h
      simp only [] at h
      cases eq0 with
      | none =>
          simp only [] at h
          split at h
          · exact Except.noConfusion h
          · rename_i hq
            simp only [Except.ok.injEq, Prod.mk.injEq] at h
            obtain ⟨h1, h2, h3, h4⟩ := h
            subst h1; subst h2; subst h3; subst h4
            rw [checkTopFields.eq_def, if_neg hcd, if_neg hta2, if_neg hmo]
            simp only []
            rw [if_neg hq]
      | some b =>
          simp only [] at h
          split at h
          · exact Except.noConfusion h
          · rename_i hq
            simp only [Except.ok.injEq, Prod.mk.injEq] at h
            obtain ⟨h1, h2, h3, h4⟩ := h
            subst h1; subst h2; subst h3; subst h4
            rw [checkTopFields.eq_def, if_neg hcd, if_neg hta2, if_neg hmo]
            simp only []
            rw [if_neg hq]

theorem checkPathOverride_fix (env : Env) (pkis : List String) (m2 : String)
    (po2 : PathOverride)
    (hlen : po2.Paths.length ≠ 0)
    (hpp : checkPathPaths po2.Paths = .ok ())
    (hor : po2.Mode = "HTTP" ∨ po2.Mode = "HTTPS")
    (hrca : checkRootCAList env pkis po2.ForwardRootCAs = .ok ())
    (hfsn : idnaToASCII po2.ForwardServerName = po2.ForwardServerName)
    (hft : po2.ForwardTimeout ≠ (0 : Int))
    (hv : validateProxyProtoVersion po2.ProxyProtocolVersion =
      .ok po2.proxyProtocolVersion) :
    checkPathOverride env pkis m2 po2 = .ok po2 := by
  rw [checkPathOverride, if_neg hlen, hpp]
  simp only []
  have hne : po2.Mode ≠ "" := by
    rcases hor with h1 | h1 <;> rw [h1] <;> decide
  rw [if_neg hne]
  have hsu : strToUpper po2.Mode = po2.Mode := by
    rcases hor with h1 | h1 <;> rw [h1] <;> rfl
  rw [hsu]
  have hguard : ¬(po2.Mode ≠ ModeHTTP ∧ po2.Mode ≠ ModeHTTPS) := by
    rcases hor with h1 | h1
    · exact fun hc => hc.1 h1
    · exact fun hc => hc.2 h1
  rw [if_neg hguard, hrca]
  simp only []
  rw [hfsn, if_neg hft]
  simp only []
  rw [hv]

theorem checkPathOverride_idem (env : Env) (pkis : List String)
    (m m2 : String) (po po2 : PathOverride)
    (h : checkPathOverride env pkis m po = .ok po2) :
    checkPathOverride env pkis m2 po2 = .ok po2 := by
  rw [checkPathOverride] at h
  by_cases hlen : po.Paths.length = 0
  · rw [if_pos hlen] at h; exact Except.noConfusion h
  · rw [if_neg hlen] at h
    cases hpp : checkPathPaths po.Paths with
    | error e => rw [hpp] at h; exact Except.noConfusion h
    | ok u =>
        rw [hpp] at h
        try simp only [] at h
        by_cases hm : po.Mode = ""
        case pos =>
          rw [if_pos hm] at h
          try simp only [] at h
          split at h
          · exact Except.noConfusion h
          rename_i hguard
          cases hrca : checkRootCAList env pkis po.ForwardRootCAs with
          | error e => rw [hrca] at h; exact Except.noConfusion h
          | ok u2 =>
              rw [hrca] at h
              try simp only [] at h
              have hor : strToUpper m = "HTTP" ∨ strToUpper m = "HTTPS" := by
                by_cases h1 : strToUpper m = ModeHTTP
                · exact Or.inl h1
                · right
                  by_contra h2
                  exact hguard ⟨h1, h2⟩
              by_cases hft : po.ForwardTimeout = (0 : Int)
              case pos =>
                rw [if_pos hft] at h
                try simp only [] at h
                cases hv : validateProxyProtoVersion po.ProxyProtocolVersion
                  with
                | error e => rw [hv] at h; exact Except.noConfusion h
                | ok ver =>
                    rw [hv] at h
                    try simp only [] at h
                    injection h with h
                    subst h
                    exact checkPathOverride_fix env pkis m2 _
                      (by simp only []; exact hlen)
                      (by simp only []; rw [hpp])
                      (by simp only []; exact hor)
                      (by simp only []; exact hrca)
                      (by simp only []; exact idnaToASCII_idem _)
                      (by simp only []; decide)
                      (by simp only []; exact hv)
              case neg =>
                rw [if_neg hft] at h
                try simp only [] at h
                cases hv : validateProxyProtoVersion po.ProxyProtocolVersion
                  with
                | error e => rw [hv] at h; exact Except.noConfusion h
                | ok ver =>
                    rw [hv] at h
                    try simp only [] at h
                    injection h with h
                    subst h
                    exact checkPathOverride_fix env pkis m2 _
                      (by simp only []; exact hlen)
                      (by simp only []; rw [hpp])
                      (by simp only []; exact hor)
                      (by simp only []; exact hrca)
                      (by simp only []; exact idnaToASCII_idem _)
                      (by simp only []; exact hft)
                      (by simp only []; exact hv)
        case neg =>
          rw [if_neg hm] at h
          try simp only [] at h
          split at h
          · exact Except.noConfusion h
          rename_i hguard
          cases hrca : checkRootCAList env pkis po.ForwardRootCAs with
          | error e => rw [hrca] at h; exact Except.noConfusion h
          | ok u2 =>
              rw [hrca] at h
              try simp only [] at h
              have hor : strToUpper po.Mode = "HTTP" ∨
                  strToUpper po.Mode = "HTTPS" := by
                by_cases h1 : strToUpper po.Mode = ModeHTTP
                · exact Or.inl h1
                · right
                  by_contra h2
                  exact hguard ⟨h1, h2⟩
              by_cases hft : po.ForwardTimeout = (0 : Int)
              case pos =>
                rw [if_pos hft] at h
                try simp only [] at h
                cases hv : validateProxyProtoVersion po.ProxyProtocolVersion
                  with
                | error e => rw [hv] at h; exact Except.noConfusion h
                | ok ver =>
                    rw [hv] at h
                    try simp only [] at h
                    injection h with h
                    subst h
                    exact checkPathOverride_fix env pkis m2 _
                      (by simp only []; exact hlen)
                      (by simp only []; rw [hpp])
                      (by simp only []; exact hor)
                      (by simp only []; exact hrca)
                      (by simp only []; exact idnaToASCII_idem _)
                      (by simp only []; decide)
                      (by simp only []; exact hv)
              case neg =>
                rw [if_neg hft] at h
                try simp only [] at h
                cases hv : validateProxyProtoVersion po.ProxyProtocolVersion
                  with
                | error e => rw [hv] at h; exact Except.noConfusion h
                | ok ver =>
                    rw [hv] at h
                    try simp only [] at h
                    injection h with h
                    subst h
                    exact checkPathOverride_fix env pkis m2 _
                      (by simp only []; exact hlen)
                      (by simp only []; rw [hpp])
                      (by simp only []; exact hor)
                      (by simp only []; exact hrca)
                      (by simp only []; exact idnaToASCII_idem _)
                      (by simp only []; exact hft)
                      (by simp only []; exact hv)

theorem checkPathOverrides_length (env : Env) (pkis : List String)
    (m : String) :
    ∀ (l out : List PathOverride),
      checkPathOverrides env pkis m l = .ok out → out.length = l.length := by
  intro l
  induction l with
  | nil =>
      intro out h
      rw [checkPathOverrides] at h
      injection h with h
      subst h
      rfl
  | cons po rest ih =>
      intro out h
      rw [checkPathOverrides] at h
      cases hpo : checkPathOverride env pkis m po with
      | error e => rw [hpo] at h; exact Except.noConfusion h
      | ok po2 =>
          rw [hpo] at h
          cases hrest : checkPathOverrides env pkis m rest with
          | error e => rw [hrest] at h; exact Except.noConfusion h
          | ok rest2 =>
              rw [hrest] at h
              injection h with h
              subst h
              simp [ih rest2 hrest]

theorem checkPathOverrides_idem (env : Env) (pkis : List String)
    (m m2 : String) :
    ∀ (l out : List PathOverride),
      checkPathOverrides env pkis m l = .ok out →
      checkPathOverrides env pkis m2 out = .ok out := by
  intro l
  induction l with
  | nil =>
      intro out h
      rw [checkPathOverrides] at h
      injection h with h
      subst h
      rw [checkPathOverrides]
  | cons po rest ih =>
      intro out h
      rw [checkPathOverrides] at h
      cases hpo : checkPathOverride env pkis m po with
      | error e => rw [hpo] at h; exact Except.noConfusion h
      | ok po2 =>
          rw [hpo] at h
          cases hrest : checkPathOverrides env pkis m rest with
          | error e => rw [hrest] at h; exact Except.noConfusion h
          | ok rest2 =>
              rw [hrest] at h
              injection h with h
              subst h
              rw [checkPathOverrides,
                checkPathOverride_idem env pkis m m2 po po2 hpo,
                ih rest2 hrest]

theorem checkBackendDetail_fix (env : Env) (pkis bwNames idps : List String)
    (be2 : Backend)
    (g1 : ¬be2.ServerNames.length = 0)
    (g2 : ¬(be2.Addresses.length = 0 ∧ be2.Mode ≠ ModeConsole ∧
      be2.Mode ≠ ModeHTTP ∧ be2.Mode ≠ ModeHTTPS ∧ be2.Mode ≠ ModeLocal))
    (g3 : ¬(0 < be2.Addresses.length ∧
      (be2.Mode = ModeConsole ∨ be2.Mode = ModeLocal)))
    (g4 : ¬(be2.BWLimit ≠ "" ∧ (bwNames.contains be2.BWLimit) = false))
    (hca : checkClientAuthSection env pkis be2.ClientAuth = .ok ())
    (hsso : checkSSOSection env idps be2.SSO = .ok ())
    (hrca : checkRootCAList env pkis be2.ForwardRootCAs = .ok ())
    (hft : be2.ForwardTimeout ≠ (0 : Int))
    (hai : checkIPsSection env be2.AllowIPs = .ok ())
    (hdi : checkIPsSection env be2.DenyIPs = .ok ())
    (hfsn : idnaToASCII be2.ForwardServerName = be2.ForwardServerName)
    (hfrl : be2.ForwardRateLimit ≠ (0 : Int))
    (hv : validateProxyProtoVersion be2.ProxyProtocolVersion =
      .ok be2.proxyProtocolVersion)
    (g5 : ¬(0 < be2.PathOverrides.length ∧ be2.Mode ≠ ModeHTTP ∧
      be2.Mode ≠ ModeHTTPS))
    (hpo : checkPathOverrides env pkis be2.Mode be2.PathOverrides =
      .ok be2.PathOverrides) :
    checkBackendDetail env pkis bwNames idps be2 = .ok be2 := by
  rw [checkBackendDetail, if_neg g1, if_neg g2, if_neg g3, if_neg g4, hca]
  try simp only []
  rw [hsso]
  try simp only []
  rw [hrca]
  try simp only []
  rw [if_neg hft, hai]
  try simp only []
  rw [hdi]
  try simp only []
  rw [hfsn]
  try simp only []
  rw [if_neg hfrl]
  try simp only []
  rw [hv]
  try simp only []
  rw [if_neg g5, hpo]

theorem checkBackendDetail_idem (env : Env) (pkis bwNames idps : List String)
    (be be2 : Backend)
    (h : checkBackendDetail env pkis bwNames idps be = .ok be2) :
    checkBackendDetail env pkis bwNames idps be2 = .ok be2 := by
  rw [checkBackendDetail] at h
  by_cases g1 : be.ServerNames.length = 0
  · rw [if_pos g1] at h; exact Except.noConfusion h
  rw [if_neg g1] at h
  by_cases g2 : be.Addresses.length = 0 ∧ be.Mode ≠ ModeConsole ∧
      be.Mode ≠ ModeHTTP ∧ be.Mode ≠ ModeHTTPS ∧ be.Mode ≠ ModeLocal
  · rw [if_pos g2] at h; exact Except.noConfusion h
  rw [if_neg g2] at h
  by_cases g3 : 0 < be.Addresses.length ∧
      (be.Mode = ModeConsole ∨ be.Mode = ModeLocal)
  · rw [if_pos g3] at h; exact Except.noConfusion h
  rw [if_neg g3] at h
  by_cases g4 : be.BWLimit ≠ "" ∧ (bwNames.contains be.BWLimit) = false
  · rw [if_pos g4] at h; exact Except.noConfusion h
  rw [if_neg g4] at h
  cases hca : checkClientAuthSection env pkis be.ClientAuth with
  | error e => rw [hca] at h; exact Except.noConfusion h
  | ok u1 =>
  rw [hca] at h
  try simp only [] at h
  cases hsso : checkSSOSection env idps be.SSO with
  | error e => rw [hsso] at h; exact Except.noConfusion h
  | ok u2 =>
  rw [hsso] at h
  try simp only [] at h
  cases hrca : checkRootCAList env pkis be.ForwardRootCAs with
  | error e => rw [hrca] at h; exact Except.noConfusion h
  | ok u3 =>
  rw [hrca] at h
  try simp only [] at h
  by_cases hft : be.ForwardTimeout = (0 : Int)
  case pos =>
    rw [if_pos hft] at h
    try simp only [] at h
    cases hai : checkIPsSection env be.AllowIPs with
    | error e => rw [hai] at h; exact Except.noConfusion h
    | ok u4 =>
    rw [hai] at h
    try simp only [] at h
    cases hdi : checkIPsSection env be.DenyIPs with
    | error e => rw [hdi] at h; exact Except.noConfusion h
    | ok u5 =>
    rw [hdi] at h
    try simp only [] at h
    by_cases hfrl : be.ForwardRateLimit = (0 : Int)
    case pos =>
      rw [if_pos hfrl] at h
      try simp only [] at h
      cases hv : validateProxyProtoVersion be.ProxyProtocolVersion with
      | error e => rw [hv] at h; exact Except.noConfusion h
      | ok ver =>
      rw [hv] at h
      try simp only [] at h
      split at h
      · exact Except.noConfusion h
      rename_i g5
      cases hpo : checkPathOverrides env pkis be.Mode be.PathOverrides with
      | error e => rw [hpo] at h; exact Except.noConfusion h
      | ok pos1 =>
      rw [hpo] at h
      try simp only [] at h
      injection h with h
      subst h
      apply checkBackendDetail_fix
      · (try simp only []); exact g1
      · (try simp only []); exact g2
      · (try simp only []); exact g3
      · (try simp only []); exact g4
      · (try simp only []); exact hca
      · (try simp only []); exact hsso
      · (try simp only []); exact hrca
      · (try simp only []); decide
      · (try simp only []); exact hai
      · (try simp only []); exact hdi
      · (try simp only []); exact idnaToASCII_idem _
      · (try simp only []); decide
      · (try simp only []); exact hv
      · (try simp only [])
        rw [checkPathOverrides_length env pkis be.Mode _ _ hpo]
        exact g5
      · (try simp only [])
        exact checkPathOverrides_idem env pkis be.Mode be.Mode _ _ hpo
    case neg =>
      rw [if_neg hfrl] at h
      try simp only [] at h
      cases hv : validateProxyProtoVersion be.ProxyProtocolVersion with
      | error e => rw [hv] at h; exact Except.noConfusion h
      | ok ver =>
      rw [hv] at h
      try simp only [] at h
      split at h
      · exact Except.noConfusion h
      rename_i g5
      cases hpo : checkPathOverrides env pkis be.Mode be.PathOverrides with
      | error e => rw [hpo] at h; exact Except.noConfusion h
      | ok pos1 =>
      rw [hpo] at h
      try simp only [] at h
      injection h with h
      subst h
      apply checkBackendDetail_fix
      · (try simp only []); exact g1
      · (try simp only []); exact g2
      · (try simp only []); exact g3
      · (try simp only []); exact g4
      · (try simp only []); exact hca
      · (try simp only []); exact hsso
      · (try simp only []); exact hrca
      · (try simp only []); decide
      · (try simp only []); exact hai
      · (try simp only []); exact hdi
      · (try simp only []); exact idnaToASCII_idem _
      · (try simp only []); exact hfrl
      · (try simp only []); exact hv
      · (try simp only [])
        rw [checkPathOverrides_length env pkis be.Mode _ _ hpo]
        exact g5
      · (try simp only [])
        exact checkPathOverrides_idem env pkis be.Mode be.Mode _ _ hpo
  case neg =>
    rw [if_neg hft] at h
    try simp only [] at h
    cases hai : checkIPsSection env be.AllowIPs with
    | error e => rw [hai] at h; exact Except.noConfusion h
    | ok u4 =>
    rw [hai] at h
    try simp only [] at h
    cases hdi : checkIPsSection env be.DenyIPs with
    | error e => rw [hdi] at h; exact Except.noConfusion h
    | ok u5 =>
    rw [hdi] at h
    try simp only [] at h
    by_cases hfrl : be.ForwardRateLimit = (0 : Int)
    case pos =>
      rw [if_pos hfrl] at h
      try simp only [] at h
      cases hv : validateProxyProtoVersion be.ProxyProtocolVersion with
      | error e => rw [hv] at h; exact Except.noConfusion h
      | ok ver =>
      rw [hv] at h
      try simp only [] at h
      split at h
      · exact Except.noConfusion h
      rename_i g5
      cases hpo : checkPathOverrides env pkis be.Mode be.PathOverrides with
      | error e => rw [hpo] at h; exact Except.noConfusion h
      | ok pos1 =>
      rw [hpo] at h
      try simp only [] at h
      injection h with h
      subst h
      apply checkBackendDetail_fix
      · (try simp only []); exact g1
      · (try simp only []); exact g2
      · (try simp only []); exact g3
      · (try simp only []); exact g4
      · (try simp only []); exact hca
      · (try simp only []); exact hsso
      · (try simp only []); exact hrca
      · (try simp only []); exact hft
      · (try simp only []); exact hai
      · (try simp only []); exact hdi
      · (try simp only []); exact idnaToASCII_idem _
      · (try simp only []); decide
      · (try simp only []); exact hv
      · (try simp only [])
        rw [checkPathOverrides_length env pkis be.Mode _ _ hpo]
        exact g5
      · (try simp only [])
        exact checkPathOverrides_idem env pkis be.Mode be.Mode _ _ hpo
    case neg =>
      rw [if_neg hfrl] at h
      try simp only [] at h
      cases hv : validateProxyProtoVersion be.ProxyProtocolVersion with
      | error e => rw [hv] at h; exact Except.noConfusion h
      | ok ver =>
      rw [hv] at h
      try simp only [] at h
      split at h
      · exact Except.noConfusion h
      rename_i g5
      cases hpo : checkPathOverrides env pkis be.Mode be.PathOverrides with
      | error e => rw [hpo] at h; exact Except.noConfusion h
      | ok pos1 =>
      rw [hpo] at h
      try simp only [] at h
      injection h with h
      subst h
      apply checkBackendDetail_fix
      · (try simp only []); exact g1
      · (try simp only []); exact g2
      · (try simp only []); exact g3
      · (try simp only []); exact g4
      · (try simp only []); exact hca
      · (try simp only []); exact hsso
      · (try simp only []); exact hrca
      · (try simp only []); exact hft
      · (try simp only []); exact hai
      · (try simp only []); exact hdi
      · (try simp only []); exact idnaToASCII_idem _
      · (try simp only []); exact hfrl
      · (try simp only []); exact hv
      · (try simp only [])
        rw [checkPathOverrides_length env pkis be.Mode _ _ hpo]
        exact g5
      · (try simp only [])
        exact checkPathOverrides_idem env pkis be.Mode be.Mode _ _ hpo

theorem checkBackendMode_inv (q : Bool) (be be2 : Backend)
    (h : checkBackendMode q be = .ok be2) :
    strToUpper be2.Mode = be2.Mode ∧
    ¬(be2.Mode = "" ∨ be2.Mode = ModePlaintext) ∧
    validModes.contains be2.Mode = true ∧
    ¬(be2.Mode = ModeTLSPassthrough ∧ be2.ClientAuth.isSome = true) ∧
    be2.ALPNProtos.isSome = true ∧
    ¬(be2.BackendProto.isSome = true ∧ be2.Mode ≠ ModeHTTP ∧
      be2.Mode ≠ ModeHTTPS) ∧
    (be2.Mode = ModeQUIC → be2.ServerCloseEndsConnection.isSome = true ∧
      be2.ClientCloseEndsConnection.isSome = true) := by
  rw [checkBackendMode] at h
  try simp only [] at h
  by_cases hdef : strToUpper be.Mode = "" ∨ strToUpper be.Mode = ModePlaintext
  case pos =>
    rw [if_pos hdef] at h
    try simp only [] at h
    by_cases hvm : validModes.contains ModeTCP = false
    · rw [if_pos hvm] at h; exact Except.noConfusion h
    rw [if_neg hvm] at h
    by_cases hpass : ModeTCP = ModeTLSPassthrough ∧ be.ClientAuth.isSome = true
    · rw [if_pos hpass] at h; exact Except.noConfusion h
    rw [if_neg hpass] at h
    try simp only [] at h
    cases hA : be.ALPNProtos with
    | some a =>
        rw [hA] at h
        try simp only [] at h
        by_cases hbp : be.BackendProto.isSome = true ∧ ModeTCP ≠ ModeHTTP ∧ ModeTCP ≠ ModeHTTPS
        · rw [if_pos hbp] at h; exact Except.noConfusion h
        rw [if_neg hbp] at h
        try simp only [] at h
        by_cases hq2 : ModeTCP = ModeQUIC
        case pos =>
          rw [if_pos hq2] at h
          try simp only [] at h
          cases hS : be.ServerCloseEndsConnection with
          | none =>
              rw [hS] at h
              try simp only [] at h
              cases hC : be.ClientCloseEndsConnection with
              | none =>
                  rw [hC] at h
                  try simp only [] at h
                  injection h with h
                  subst h
                  refine ⟨?_, ?_, ?_, ?_, ?_, ?_, ?_⟩
                  · show strToUpper ModeTCP = ModeTCP; rfl
                  · show ¬(ModeTCP = "" ∨ ModeTCP = ModePlaintext); decide
                  · exact eq_true_of_ne_false hvm
                  · exact hpass
                  · rfl
                  · exact hbp
                  · intro hqq; exact ⟨rfl, rfl⟩
              | some b2 =>
                  rw [hC] at h
                  try simp only [] at h
                  injection h with h
                  subst h
                  refine ⟨?_, ?_, ?_, ?_, ?_, ?_, ?_⟩
                  · show strToUpper ModeTCP = ModeTCP; rfl
                  · show ¬(ModeTCP = "" ∨ ModeTCP = ModePlaintext); decide
                  · exact eq_true_of_ne_false hvm
                  · exact hpass
                  · rfl
                  · exact hbp
                  · intro hqq; exact ⟨rfl, rfl⟩
          | some b1 =>
              rw [hS] at h
              try simp only [] at h
              cases hC : be.ClientCloseEndsConnection with
              | none =>
                  rw [hC] at h
                  try simp only [] at h
                  injection h with h
                  subst h
                  refine ⟨?_, ?_, ?_, ?_, ?_, ?_, ?_⟩
                  · show strToUpper ModeTCP = ModeTCP; rfl
                  · show ¬(ModeTCP = "" ∨ ModeTCP = ModePlaintext); decide
                  · exact eq_true_of_ne_false hvm
                  · exact hpass
                  · rfl
                  · exact hbp
                  · intro hqq; exact ⟨rfl, rfl⟩
              | some b2 =>
                  rw [hC] at h
                  try simp only [] at h
                  injection h with h
                  subst h
                  refine ⟨?_, ?_, ?_, ?_, ?_, ?_, ?_⟩
                  · show strToUpper ModeTCP = ModeTCP; rfl
                  · show ¬(ModeTCP = "" ∨ ModeTCP = ModePlaintext); decide
                  · exact eq_true_of_ne_false hvm
                  · exact hpass
                  · rfl
                  · exact hbp
                  · intro hqq; exact ⟨rfl, rfl⟩
        case neg =>
          rw [if_neg hq2] at h
          try simp only [] at h
          injection h with h
          subst h
          refine ⟨?_, ?_, ?_, ?_, ?_, ?_, ?_⟩
          · show strToUpper ModeTCP = ModeTCP; rfl
          · show ¬(ModeTCP = "" ∨ ModeTCP = ModePlaintext); decide
          · exact eq_true_of_ne_false hvm
          · exact hpass
          · rfl
          · exact hbp
          · intro hc; exact absurd hc hq2
    | none =>
        rw [hA] at h
        try simp only [] at h
        by_cases hqd : q = true ∧ (ModeTCP = ModeHTTP ∨ ModeTCP = ModeHTTPS ∨ ModeTCP = ModeQUIC ∨ ModeTCP = ModeLocal ∨ ModeTCP = ModeConsole)
        case pos =>
          rw [if_pos hqd] at h
          try simp only [] at h
          by_cases hbp : be.BackendProto.isSome = true ∧ ModeTCP ≠ ModeHTTP ∧ ModeTCP ≠ ModeHTTPS
          · rw [if_pos hbp] at h; exact Except.noConfusion h
          rw [if_neg hbp] at h
          try simp only [] at h
          by_cases hq2 : ModeTCP = ModeQUIC
          case pos =>
            rw [if_pos hq2] at h
            try simp only [] at h
            cases hS : be.ServerCloseEndsConnection with
            | none =>
                rw [hS] at h
                try simp only [] at h
                cases hC : be.ClientCloseEndsConnection with
                | none =>
                    rw [hC] at h
                    try simp only [] at h
                    injection h with h
                    subst h
                    refine ⟨?_, ?_, ?_, ?_, ?_, ?_, ?_⟩
                    · show strToUpper ModeTCP = ModeTCP; rfl
                    · show ¬(ModeTCP = "" ∨ ModeTCP = ModePlaintext); decide
                    · exact eq_true_of_ne_false hvm
                    · exact hpass
                    · rfl
                    · exact hbp
                    · intro hqq; exact ⟨rfl, rfl⟩
                | some b2 =>
                    rw [hC] at h
                    try simp only [] at h
                    injection h with h
                    subst h
                    refine ⟨?_, ?_, ?_, ?_, ?_, ?_, ?_⟩
                    · show strToUpper ModeTCP = ModeTCP; rfl
                    · show ¬(ModeTCP = "" ∨ ModeTCP = ModePlaintext); decide
                    · exact eq_true_of_ne_false hvm
                    · exact hpass
                    · rfl
                    · exact hbp
                    · intro hqq; exact ⟨rfl, rfl⟩
            | some b1 =>
                rw [hS] at h
                try simp only [] at h
                cases hC : be.ClientCloseEndsConnection with
                | none =>
                    rw [hC] at h
                    try simp only [] at h
                    injection h with h
                    subst h
                    refine ⟨?_, ?_, ?_, ?_, ?_, ?_, ?_⟩
                    · show strToUpper ModeTCP = ModeTCP; rfl
                    · show ¬(ModeTCP = "" ∨ ModeTCP = ModePlaintext); decide
                    · exact eq_true_of_ne_false hvm
                    · exact hpass
                    · rfl
                    · exact hbp
                    · intro hqq; exact ⟨rfl, rfl⟩
                | some b2 =>
                    rw [hC] at h
                    try simp only [] at h
                    injection h with h
                    subst h
                    refine ⟨?_, ?_, ?_, ?_, ?_, ?_, ?_⟩
                    · show strToUpper ModeTCP = ModeTCP; rfl
                    · show ¬(ModeTCP = "" ∨ ModeTCP = ModePlaintext); decide
                    · exact eq_true_of_ne_false hvm
                    · exact hpass
                    · rfl
                    · exact hbp
                    · intro hqq; exact ⟨rfl, rfl⟩
          case neg =>
            rw [if_neg hq2] at h
            try simp only [] at h
            injection h with h
            subst h
            refine ⟨?_, ?_, ?_, ?_, ?_, ?_, ?_⟩
            · show strToUpper ModeTCP = ModeTCP; rfl
            · show ¬(ModeTCP = "" ∨ ModeTCP = ModePlaintext); decide
            · exact eq_true_of_ne_false hvm
            · exact hpass
            · rfl
            · exact hbp
            · intro hc; exact absurd hc hq2
        case neg =>
          rw [if_neg hqd] at h
          try simp only [] at h
          by_cases hbp : be.BackendProto.isSome = true ∧ ModeTCP ≠ ModeHTTP ∧ ModeTCP ≠ ModeHTTPS
          · rw [if_pos hbp] at h; exact Except.noConfusion h
          rw [if_neg hbp] at h
          try simp only [] at h
          by_cases hq2 : ModeTCP = ModeQUIC
          case pos =>
            rw [if_pos hq2] at h
            try simp only [] at h
            cases hS : be.ServerCloseEndsConnection with
            | none =>
                rw [hS] at h
                try simp only [] at h
                cases hC : be.ClientCloseEndsConnection with
                | none =>
                    rw [hC] at h
                    try simp only [] at h
                    injection h with h
                    subst h
                    refine ⟨?_, ?_, ?_, ?_, ?_, ?_, ?_⟩
                    · show strToUpper ModeTCP = ModeTCP; rfl
                    · show ¬(ModeTCP = "" ∨ ModeTCP = ModePlaintext); decide
                    · exact eq_true_of_ne_false hvm
                    · exact hpass
                    · rfl
                    · exact hbp
                    · intro hqq; exact ⟨rfl, rfl⟩
                | some b2 =>
                    rw [hC] at h
                    try simp only [] at h
                    injection h with h
                    subst h
                    refine ⟨?_, ?_, ?_, ?_, ?_, ?_, ?_⟩
                    · show strToUpper ModeTCP = ModeTCP; rfl
                    · show ¬(ModeTCP = "" ∨ ModeTCP = ModePlaintext); decide
                    · exact eq_true_of_ne_false hvm
                    · exact hpass
                    · rfl
                    · exact hbp
                    · intro hqq; exact ⟨rfl, rfl⟩
            | some b1 =>
                rw [hS] at h
                try simp only [] at h
                cases hC : be.ClientCloseEndsConnection with
                | none =>
                    rw [hC] at h
                    try simp only [] at h
                    injection h with h
                    subst h
                    refine ⟨?_, ?_, ?_, ?_, ?_, ?_, ?_⟩
                    · show strToUpper ModeTCP = ModeTCP; rfl
                    · show ¬(ModeTCP = "" ∨ ModeTCP = ModePlaintext); decide
                    · exact eq_true_of_ne_false hvm
                    · exact hpass
                    · rfl
                    · exact hbp
                    · intro hqq; exact ⟨rfl, rfl⟩
                | some b2 =>
                    rw [hC] at h
                    try simp only [] at h
                    injection h with h
                    subst h
                    refine ⟨?_, ?_, ?_, ?_, ?_, ?_, ?_⟩
                    · show strToUpper ModeTCP = ModeTCP; rfl
                    · show ¬(ModeTCP = "" ∨ ModeTCP = ModePlaintext); decide
                    · exact eq_true_of_ne_false hvm
                    · exact hpass
                    · rfl
                    · exact hbp
                    · intro hqq; exact ⟨rfl, rfl⟩
          case neg =>
            rw [if_neg hq2] at h
            try simp only [] at h
            injection h with h
            subst h
            refine ⟨?_, ?_, ?_, ?_, ?_, ?_, ?_⟩
            · show strToUpper ModeTCP = ModeTCP; rfl
            · show ¬(ModeTCP = "" ∨ ModeTCP = ModePlaintext); decide
            · exact eq_true_of_ne_false hvm
            · exact hpass
            · rfl
            · exact hbp
            · intro hc; exact absurd hc hq2
  case neg =>
    rw [if_neg hdef] at h
    try simp only [] at h
    by_cases hvm : validModes.contains (strToUpper be.Mode) = false
    · rw [if_pos hvm] at h; exact Except.noConfusion h
    rw [if_neg hvm] at h
    by_cases hpass : (strToUpper be.Mode) = ModeTLSPassthrough ∧ be.ClientAuth.isSome = true
    · rw [if_pos hpass] at h; exact Except.noConfusion h
    rw [if_neg hpass] at h
    try simp only [] at h
    cases hA : be.ALPNProtos with
    | some a =>
        rw [hA] at h
        try simp only [] at h
        by_cases hbp : be.BackendProto.isSome = true ∧ (strToUpper be.Mode) ≠ ModeHTTP ∧ (strToUpper be.Mode) ≠ ModeHTTPS
        · rw [if_pos hbp] at h; exact Except.noConfusion h
        rw [if_neg hbp] at h
        try simp only [] at h
        by_cases hq2 : (strToUpper be.Mode) = ModeQUIC
        case pos =>
          rw [if_pos hq2] at h
          try simp only [] at h
          cases hS : be.ServerCloseEndsConnection with
          | none =>
              rw [hS] at h
              try simp only [] at h
              cases hC : be.ClientCloseEndsConnection with
              | none =>
                  rw [hC] at h
                  try simp only [] at h
                  injection h with h
                  subst h
                  refine ⟨?_, ?_, ?_, ?_, ?_, ?_, ?_⟩
                  · exact strToUpper_idem be.Mode
                  · exact hdef
                  · exact eq_true_of_ne_false hvm
                  · exact hpass
                  · rfl
                  · exact hbp
                  · intro hqq; exact ⟨rfl, rfl⟩
              | some b2 =>
                  rw [hC] at h
                  try simp only [] at h
                  injection h with h
                  subst h
                  refine ⟨?_, ?_, ?_, ?_, ?_, ?_, ?_⟩
                  · exact strToUpper_idem be.Mode
                  · exact hdef
                  · exact eq_true_of_ne_false hvm
                  · exact hpass
                  · rfl
                  · exact hbp
                  · intro hqq; exact ⟨rfl, rfl⟩
          | some b1 =>
              rw [hS] at h
              try simp only [] at h
              cases hC : be.ClientCloseEndsConnection with
              | none =>
                  rw [hC] at h
                  try simp only [] at h
                  injection h with h
                  subst h
                  refine ⟨?_, ?_, ?_, ?_, ?_, ?_, ?_⟩
                  · exact strToUpper_idem be.Mode
                  · exact hdef
                  · exact eq_true_of_ne_false hvm
                  · exact hpass
                  · rfl
                  · exact hbp
                  · intro hqq; exact ⟨rfl, rfl⟩
              | some b2 =>
                  rw [hC] at h
                  try simp only [] at h
                  injection h with h
                  subst h
                  refine ⟨?_, ?_, ?_, ?_, ?_, ?_, ?_⟩
                  · exact strToUpper_idem be.Mode
                  · exact hdef
                  · exact eq_true_of_ne_false hvm
                  · exact hpass
                  · rfl
                  · exact hbp
                  · intro hqq; exact ⟨rfl, rfl⟩
        case neg =>
          rw [if_neg hq2] at h
          try simp only [] at h
          injection h with h
          subst h
          refine ⟨?_, ?_, ?_, ?_, ?_, ?_, ?_⟩
          · exact strToUpper_idem be.Mode
          · exact hdef
          · exact eq_true_of_ne_false hvm
          · exact hpass
          · rfl
          · exact hbp
          · intro hc; exact absurd hc hq2
    | none =>
        rw [hA] at h
        try simp only [] at h
        by_cases hqd : q = true ∧ ((strToUpper be.Mode) = ModeHTTP ∨ (strToUpper be.Mode) = ModeHTTPS ∨ (strToUpper be.Mode) = ModeQUIC ∨ (strToUpper be.Mode) = ModeLocal ∨ (strToUpper be.Mode) = ModeConsole)
        case pos =>
          rw [if_pos hqd] at h
          try simp only [] at h
          by_cases hbp : be.BackendProto.isSome = true ∧ (strToUpper be.Mode) ≠ ModeHTTP ∧ (strToUpper be.Mode) ≠ ModeHTTPS
          · rw [if_pos hbp] at h; exact Except.noConfusion h
          rw [if_neg hbp] at h
          try simp only [] at h
          by_cases hq2 : (strToUpper be.Mode) = ModeQUIC
          case pos =>
            rw [if_pos hq2] at h
            try simp only [] at h
            cases hS : be.ServerCloseEndsConnection with
            | none =>
                rw [hS] at h
                try simp only [] at h
                cases hC : be.ClientCloseEndsConnection with
                | none =>
                    rw [hC] at h
                    try simp only [] at h
                    injection h with h
                    subst h
                    refine ⟨?_, ?_, ?_, ?_, ?_, ?_, ?_⟩
                    · exact strToUpper_idem be.Mode
                    · exact hdef
                    · exact eq_true_of_ne_false hvm
                    · exact hpass
                    · rfl
                    · exact hbp
                    · intro hqq; exact ⟨rfl, rfl⟩
                | some b2 =>
                    rw [hC] at h
                    try simp only [] at h
                    injection h with h
                    subst h
                    refine ⟨?_, ?_, ?_, ?_, ?_, ?_, ?_⟩
                    · exact strToUpper_idem be.Mode
                    · exact hdef
                    · exact eq_true_of_ne_false hvm
                    · exact hpass
                    · rfl
                    · exact hbp
                    · intro hqq; exact ⟨rfl, rfl⟩
            | some b1 =>
                rw [hS] at h
                try simp only [] at h
                cases hC : be.ClientCloseEndsConnection with
                | none =>
                    rw [hC] at h
                    try simp only [] at h
                    injection h with h
                    subst h
                    refine ⟨?_, ?_, ?_, ?_, ?_, ?_, ?_⟩
                    · exact strToUpper_idem be.Mode
                    · exact hdef
                    · exact eq_true_of_ne_false hvm
                    · exact hpass
                    · rfl
                    · exact hbp
                    · intro hqq; exact ⟨rfl, rfl⟩
                | some b2 =>
                    rw [hC] at h
                    try simp only [] at h
                    injection h with h
                    subst h
                    refine ⟨?_, ?_, ?_, ?_, ?_, ?_, ?_⟩
                    · exact strToUpper_idem be.Mode
                    · exact hdef
                    · exact eq_true_of_ne_false hvm
                    · exact hpass
                    · rfl
                    · exact hbp
                    · intro hqq; exact ⟨rfl, rfl⟩
          case neg =>
            rw [if_neg hq2] at h
            try simp only [] at h
            injection h with h
            subst h
            refine ⟨?_, ?_, ?_, ?_, ?_, ?_, ?_⟩
            · exact strToUpper_idem be.Mode
            · exact hdef
            · exact eq_true_of_ne_false hvm
            · exact hpass
            · rfl
            · exact hbp
            · intro hc; exact absurd hc hq2
        case neg =>
          rw [if_neg hqd] at h
          try simp only [] at h
          by_cases hbp : be.BackendProto.isSome = true ∧ (strToUpper be.Mode) ≠ ModeHTTP ∧ (strToUpper be.Mode) ≠ ModeHTTPS
          · rw [if_pos hbp] at h; exact Except.noConfusion h
          rw [if_neg hbp] at h
          try simp only [] at h
          by_cases hq2 : (strToUpper be.Mode) = ModeQUIC
          case pos =>
            rw [if_pos hq2] at h
            try simp only [] at h
            cases hS : be.ServerCloseEndsConnection with
            | none =>
                rw [hS] at h
                try simp only [] at h
                cases hC : be.ClientCloseEndsConnection with
                | none =>
                    rw [hC] at h
                    try simp only [] at h
                    injection h with h
                    subst h
                    refine ⟨?_, ?_, ?_, ?_, ?_, ?_, ?_⟩
                    · exact strToUpper_idem be.Mode
                    · exact hdef
                    · exact eq_true_of_ne_false hvm
                    · exact hpass
                    · rfl
                    · exact hbp
                    · intro hqq; exact ⟨rfl, rfl⟩
                | some b2 =>
                    rw [hC] at h
                    try simp only [] at h
                    injection h with h
                    subst h
                    refine ⟨?_, ?_, ?_, ?_, ?_, ?_, ?_⟩
                    · exact strToUpper_idem be.Mode
                    · exact hdef
                    · exact eq_true_of_ne_false hvm
                    · exact hpass
                    · rfl
                    · exact hbp
                    · intro hqq; exact ⟨rfl, rfl⟩
            | some b1 =>
                rw [hS] at h
                try simp only [] at h
                cases hC : be.ClientCloseEndsConnection with
                | none =>
                    rw [hC] at h
                    try simp only [] at h
                    injection h with h
                    subst h
                    refine ⟨?_, ?_, ?_, ?_, ?_, ?_, ?_⟩
                    · exact strToUpper_idem be.Mode
                    · exact hdef
                    · exact eq_true_of_ne_false hvm
                    · exact hpass
                    · rfl
                    · exact hbp
                    · intro hqq; exact ⟨rfl, rfl⟩
                | some b2 =>
                    rw [hC] at h
                    try simp only [] at h
                    injection h with h
                    subst h
                    refine ⟨?_, ?_, ?_, ?_, ?_, ?_, ?_⟩
                    · exact strToUpper_idem be.Mode
                    · exact hdef
                    · exact eq_true_of_ne_false hvm
                    · exact hpass
                    · rfl
                    · exact hbp
                    · intro hqq; exact ⟨rfl, rfl⟩
          case neg =>
            rw [if_neg hq2] at h
            try simp only [] at h
            injection h with h
            subst h
            refine ⟨?_, ?_, ?_, ?_, ?_, ?_, ?_⟩
            · exact strToUpper_idem be.Mode
            · exact hdef
            · exact eq_true_of_ne_false hvm
            · exact hpass
            · rfl
            · exact hbp
            · intro hc; exact absurd hc hq2

theorem checkBackendMode_fix (q : Bool) (be : Backend)
    (p1 : strToUpper be.Mode = be.Mode)
    (p2 : ¬(be.Mode = "" ∨ be.Mode = ModePlaintext))
    (p3 : validModes.contains be.Mode = true)
    (p4 : ¬(be.Mode = ModeTLSPassthrough ∧ be.ClientAuth.isSome = true))
    (p5 : be.ALPNProtos.isSome = true)
    (p6 : ¬(be.BackendProto.isSome = true ∧ be.Mode ≠ ModeHTTP ∧
      be.Mode ≠ ModeHTTPS))
    (p7 : be.Mode = ModeQUIC → be.ServerCloseEndsConnection.isSome = true ∧
      be.ClientCloseEndsConnection.isSome = true) :
    checkBackendMode q be = .ok be := by
  rw [checkBackendMode]
  try simp only []
  rw [p1]
  try simp only []
  rw [if_neg p2]
  try simp only []
  rw [if_neg (by intro hc; rw [p3] at hc; exact Bool.noConfusion hc :
    ¬validModes.contains be.Mode = false)]
  rw [if_neg p4]
  cases hA : be.ALPNProtos with
  | none => rw [hA] at p5; exact absurd p5 (by decide)
  | some a =>
      try simp only []
      rw [if_neg p6]
      by_cases hq2 : be.Mode = ModeQUIC
      case pos =>
        rw [if_pos hq2]
        obtain ⟨hs, hc⟩ := p7 hq2
        cases hS : be.ServerCloseEndsConnection with
        | none => rw [hS] at hs; exact absurd hs (by decide)
        | some b1 =>
            try simp only []
            cases hC : be.ClientCloseEndsConnection with
            | none => rw [hC] at hc; exact absurd hc (by decide)
            | some b2 =>
                try simp only []
                rw [← hA, ← hS, ← hC]
      case neg =>
        rw [if_neg hq2]
        try simp only []
        rw [← hA]

theorem modeProps_transfer (b c : Backend)
    (hM : c.Mode = b.Mode)
    (hCA : c.ClientAuth.isSome = b.ClientAuth.isSome)
    (hAL : c.ALPNProtos.isSome = b.ALPNProtos.isSome)
    (hBP : c.BackendProto.isSome = b.BackendProto.isSome)
    (hS : c.ServerCloseEndsConnection.isSome =
      b.ServerCloseEndsConnection.isSome)
    (hC : c.ClientCloseEndsConnection.isSome =
      b.ClientCloseEndsConnection.isSome)
    (h : strToUpper b.Mode = b.Mode ∧
      ¬(b.Mode = "" ∨ b.Mode = ModePlaintext) ∧
      validModes.contains b.Mode = true ∧
      ¬(b.Mode = ModeTLSPassthrough ∧ b.ClientAuth.isSome = true) ∧
      b.ALPNProtos.isSome = true ∧
      ¬(b.BackendProto.isSome = true ∧ b.Mode ≠ ModeHTTP ∧
        b.Mode ≠ ModeHTTPS) ∧
      (b.Mode = ModeQUIC → b.ServerCloseEndsConnection.isSome = true ∧
        b.ClientCloseEndsConnection.isSome = true)) :
    strToUpper c.Mode = c.Mode ∧
    ¬(c.Mode = "" ∨ c.Mode = ModePlaintext) ∧
    validModes.contains c.Mode = true ∧
    ¬(c.Mode = ModeTLSPassthrough ∧ c.ClientAuth.isSome = true) ∧
    c.ALPNProtos.isSome = true ∧
    ¬(c.BackendProto.isSome = true ∧ c.Mode ≠ ModeHTTP ∧
      c.Mode ≠ ModeHTTPS) ∧
    (c.Mode = ModeQUIC → c.ServerCloseEndsConnection.isSome = true ∧
      c.ClientCloseEndsConnection.isSome = true) := by
  rw [hM, hCA, hAL, hBP, hS, hC]
  exact h

theorem checkBackendModes_mem (q : Bool) :
    ∀ (bes out : List Backend), checkBackendModes q bes = .ok out →
      ∀ b ∈ out, ∃ a ∈ bes, checkBackendMode q a = .ok b := by
  intro bes
  induction bes with
  | nil =>
      intro out h
      rw [checkBackendModes] at h
      injection h with h
      subst h
      intro b hb
      exact absurd hb (List.not_mem_nil b)
  | cons be rest ih =>
      intro out h
      rw [checkBackendModes] at h
      cases hbe : checkBackendMode q be with
      | error e => rw [hbe] at h; exact Except.noConfusion h
      | ok be2 =>
          rw [hbe] at h
          cases hrest : checkBackendModes q rest with
          | error e => rw [hrest] at h; exact Except.noConfusion h
          | ok rest2 =>
              rw [hrest] at h
              injection h with h
              subst h
              intro b hb
              rcases List.mem_cons.mp hb with rfl | hb
              · exact ⟨be, List.mem_cons_self _ _, hbe⟩
              · obtain ⟨a, ha, hR⟩ := ih rest2 hrest b hb
                exact ⟨a, List.mem_cons_of_mem _ ha, hR⟩

theorem checkBackendModes_fix_all (q : Bool) :
    ∀ (bes : List Backend), (∀ b ∈ bes, checkBackendMode q b = .ok b) →
      checkBackendModes q bes = .ok bes := by
  intro bes
  induction bes with
  | nil => intro _; rw [checkBackendModes]
  | cons be rest ih =>
      intro hall
      rw [checkBackendModes, hall be (List.mem_cons_self _ _),
        ih (fun b hb => hall b (List.mem_cons_of_mem _ hb))]

theorem checkServerNamesLoop_preserves :
    ∀ (bes : List Backend) (sns : List (String × String)) (ks : List beKey)
      (out : List Backend) (sns2 : List (String × String)) (ks2 : List beKey),
      checkServerNamesLoop sns ks bes = .ok (out, sns2, ks2) →
      List.Forall₂ (fun a b =>
        b.Mode = a.Mode ∧ b.ALPNProtos = a.ALPNProtos ∧
        b.ClientAuth = a.ClientAuth ∧ b.BackendProto = a.BackendProto ∧
        b.ServerCloseEndsConnection = a.ServerCloseEndsConnection ∧
        b.ClientCloseEndsConnection = a.ClientCloseEndsConnection) bes out := by
  intro bes
  induction bes with
  | nil =>
      intro sns ks out sns2 ks2 h
      rw [checkServerNamesLoop] at h
      simp only [Except.ok.injEq, Prod.mk.injEq] at h
      obtain ⟨h1, -, -⟩ := h
      subst h1
      exact List.Forall₂.nil
  | cons be rest ih =>
      intro sns ks out sns2 ks2 h
      rw [checkServerNamesLoop] at h
      cases hbe : checkBackendServerNames be.Mode (alpnOf be) be.ServerNames
          sns ks with
      | error e => rw [hbe] at h; exact Except.noConfusion h
      | ok t =>
          obtain ⟨names2, snsA, ksA⟩ := t
          rw [hbe] at h
          try simp only [] at h
          cases hrest : checkServerNamesLoop snsA ksA rest with
          | error e => rw [hrest] at h; exact Except.noConfusion h
          | ok t2 =>
              obtain ⟨rest2, snsB, ksB⟩ := t2
              rw [hrest] at h
              simp only [Except.ok.injEq, Prod.mk.injEq] at h
              obtain ⟨h1, -, -⟩ := h
              subst h1
              exact List.Forall₂.cons ⟨rfl, rfl, rfl, rfl, rfl, rfl⟩
                (ih _ _ _ _ _ hrest)

theorem checkBackendServerNames_idem (mode : String) (alpn : List String) :
    ∀ (names : List String) (sns : List (String × String)) (ks : List beKey)
      (names2 : List String) (sns2 : List (String × String))
      (ks2 : List beKey),
      checkBackendServerNames mode alpn names sns ks =
        .ok (names2, sns2, ks2) →
      checkBackendServerNames mode alpn names2 sns ks =
        .ok (names2, sns2, ks2) := by
  intro names
  induction names with
  | nil =>
      intro sns ks names2 sns2 ks2 h
      rw [checkBackendServerNames] at h
      simp only [Except.ok.injEq, Prod.mk.injEq] at h
      obtain ⟨h1, h2, h3⟩ := h
      subst h1; subst h2; subst h3
      rw [checkBackendServerNames]
  | cons sn rest ih =>
      intro sns ks names2 sns2 ks2 h
      rw [checkBackendServerNames] at h
      try simp only [] at h
      by_cases hl : (sns.lookup (idnaToASCII sn)).isSome = true
      case pos =>
        by_cases ha : alpn.length = 0
        case pos =>
          rw [if_pos hl, if_pos ha] at h
          try simp only [] at h
          exact Except.noConfusion h
        case neg =>
          rw [if_pos hl, if_neg ha] at h
          try simp only [] at h
          cases hk : addProtoKeys (idnaToASCII sn) alpn ks with
          | error e => rw [hk] at h; exact Except.noConfusion h
          | ok ksA =>
              rw [hk] at h
              try simp only [] at h
              cases hrec : checkBackendServerNames mode alpn rest sns ksA with
              | error e => rw [hrec] at h; exact Except.noConfusion h
              | ok t =>
                  obtain ⟨rest2, snsN, ksN⟩ := t
                  rw [hrec] at h
                  simp only [Except.ok.injEq, Prod.mk.injEq] at h
                  obtain ⟨h1, h2, h3⟩ := h
                  subst h1; subst h2; subst h3
                  rw [checkBackendServerNames]
                  try simp only []
                  rw [idnaToASCII_idem, if_pos hl, if_neg ha]
                  try simp only []
                  rw [hk]
                  try simp only []
                  rw [ih sns ksA rest2 snsN ksN hrec]
      case neg =>
        rw [if_neg hl] at h
        try simp only [] at h
        cases hk : addProtoKeys (idnaToASCII sn) alpn ks with
        | error e => rw [hk] at h; exact Except.noConfusion h
        | ok ksA =>
            rw [hk] at h
            try simp only [] at h
            cases hrec : checkBackendServerNames mode alpn rest
                (sns ++ [(idnaToASCII sn, mode)]) ksA with
            | error e => rw [hrec] at h; exact Except.noConfusion h
            | ok t =>
                obtain ⟨rest2, snsN, ksN⟩ := t
                rw [hrec] at h
                simp only [Except.ok.injEq, Prod.mk.injEq] at h
                obtain ⟨h1, h2, h3⟩ := h
                subst h1; subst h2; subst h3
                rw [checkBackendServerNames]
                try simp only []
                rw [idnaToASCII_idem, if_neg hl]
                try simp only []
                rw [hk]
                try simp only []
                rw [ih _ ksA rest2 snsN ksN hrec]

theorem checkServerNamesLoop_self :
    ∀ (bes : List Backend) (sns : List (String × String)) (ks : List beKey)
      (out : List Backend) (sns2 : List (String × String)) (ks2 : List beKey),
      checkServerNamesLoop sns ks bes = .ok (out, sns2, ks2) →
      ∀ (bes3 : List Backend),
        List.Forall₂ (fun a b => a.Mode = b.Mode ∧
          a.ALPNProtos = b.ALPNProtos ∧ a.ServerNames = b.ServerNames)
          out bes3 →
        checkServerNamesLoop sns ks bes3 = .ok (bes3, sns2, ks2) := by
  intro bes
  induction bes with
  | nil =>
      intro sns ks out sns2 ks2 h bes3 hf
      rw [checkServerNamesLoop] at h
      simp only [Except.ok.injEq, Prod.mk.injEq] at h
      obtain ⟨h1, h2, h3⟩ := h
      subst h1; subst h2; subst h3
      cases hf
      rw [checkServerNamesLoop]
  | cons be rest ih =>
      intro sns ks out sns2 ks2 h bes3 hf
      rw [checkServerNamesLoop] at h
      cases hbe : checkBackendServerNames be.Mode (alpnOf be) be.ServerNames
          sns ks with
      | error e => rw [hbe] at h; exact Except.noConfusion h
      | ok t =>
          obtain ⟨names2, snsA, ksA⟩ := t
          rw [hbe] at h
          try simp only [] at h
          cases hrest : checkServerNamesLoop snsA ksA rest with
          | error e => rw [hrest] at h; exact Except.noConfusion h
          | ok t2 =>
              obtain ⟨rest2, snsB, ksB⟩ := t2
              rw [hrest] at h
              simp only [Except.ok.injEq, Prod.mk.injEq] at h
              obtain ⟨h1, h2, h3⟩ := h
              subst h1; subst h2; subst h3
              cases hf with
              | cons hrel hfrest =>
                  rename_i c rest3
                  have hM : c.Mode = be.Mode := hrel.1.symm
                  have hAP : c.ALPNProtos = be.ALPNProtos := hrel.2.1.symm
                  have hA2 : alpnOf c = alpnOf be := by
                    rw [alpnOf, alpnOf, hAP]
                  have hSN : c.ServerNames = names2 := hrel.2.2.symm
                  rw [checkServerNamesLoop, hM, hA2, hSN,
                    checkBackendServerNames_idem be.Mode (alpnOf be)
                      be.ServerNames sns ks names2 snsA ksA hbe]
                  try simp only []
                  rw [ih snsA ksA rest2 snsB ksB hrest rest3 hfrest]
                  try simp only []
                  rw [← hSN, ← hM]

theorem checkBackendDetails_idem (env : Env) (pkis bwNames idps : List String) :
    ∀ (bes out : List Backend),
      checkBackendDetails env pkis bwNames idps bes = .ok out →
      checkBackendDetails env pkis bwNames idps out = .ok out := by
  intro bes
  induction bes with
  | nil =>
      intro out h
      rw [checkBackendDetails] at h
      injection h with h
      subst h
      rw [checkBackendDetails]
  | cons be rest ih =>
      intro out h
      rw [checkBackendDetails] at h
      cases hbe : checkBackendDetail env pkis bwNames idps be with
      | error e => rw [hbe] at h; exact Except.noConfusion h
      | ok be2 =>
          rw [hbe] at h
          cases hrest : checkBackendDetails env pkis bwNames idps rest with
          | error e => rw [hrest] at h; exact Except.noConfusion h
          | ok rest2 =>
              rw [hrest] at h
              injection h with h
              subst h
              rw [checkBackendDetails,
                checkBackendDetail_idem env pkis bwNames idps be be2 hbe,
                ih rest2 hrest]

/-- C10: `Config.Check` is idempotent on accepted configurations: if
`Check` succeeds on `cfg` producing the normalized and defaulted `cfg2`,
then running `Check` on `cfg2` succeeds again and returns `cfg2` itself —
mode uppercasing, IDNA normalization, ALPN/timeout/rate-limit/half-close
defaulting and PROXY-protocol version parsing are all fixed points on the
output. -/
theorem check_idempotent (env : Env) (cfg cfg2 : Config)
    (h : Check env cfg = .ok cfg2) :
    Check env cfg2 = .ok cfg2 := by
  rw [Check] at h
  cases htf : checkTopFields env cfg.CacheDir cfg.TLSAddr cfg.MaxOpen
      cfg.EnableQUIC with
  | error e => rw [htf] at h; exact Except.noConfusion h
  | ok t =>
  obtain ⟨cacheDir, tlsAddr, maxOpen, enableQUIC⟩ := t
  rw [htf] at h
  try simp only [] at h
  cases hoidc : checkOIDC env [] cfg.OIDCProviders with
  | error e => rw [hoidc] at h; exact Except.noConfusion h
  | ok t1 =>
  obtain ⟨oidc, seen1⟩ := t1
  rw [hoidc] at h
  try simp only [] at h
  cases hsaml : checkSAML env seen1 cfg.SAMLProviders with
  | error e => rw [hsaml] at h; exact Except.noConfusion h
  | ok t2 =>
  obtain ⟨saml, seen2⟩ := t2
  rw [hsaml] at h
  try simp only [] at h
  cases hpk : checkPasskey env seen2 cfg.PasskeyProviders with
  | error e => rw [hpk] at h; exact Except.noConfusion h
  | ok t3 =>
  obtain ⟨passkey, idps⟩ := t3
  rw [hpk] at h
  try simp only [] at h
  cases hbm : checkBackendModes enableQUIC cfg.Backends with
  | error e => rw [hbm] at h; exact Except.noConfusion h
  | ok bes1 =>
  rw [hbm] at h
  try simp only [] at h
  cases hloop : checkServerNamesLoop [] [] bes1 with
  | error e => rw [hloop] at h; exact Except.noConfusion h
  | ok t4 =>
  obtain ⟨bes2, sns, ks⟩ := t4
  rw [hloop] at h
  try simp only [] at h
  cases hpkis : checkPKIs env sns [] cfg.PKI with
  | error e => rw [hpkis] at h; exact Except.noConfusion h
  | ok pkis =>
  rw [hpkis] at h
  try simp only [] at h
  cases hbw : checkBWLimits [] cfg.BWLimits with
  | error e => rw [hbw] at h; exact Except.noConfusion h
  | ok bwNames =>
  rw [hbw] at h
  try simp only [] at h
  cases hdet : checkBackendDetails env pkis bwNames idps bes2 with
  | error e => rw [hdet] at h; exact Except.noConfusion h
  | ok bes3 =>
  rw [hdet] at h
  try simp only [] at h
  by_cases hmk : env.mkdirOk = true
  case neg =>
    rw [if_neg hmk] at h
    exact Except.noConfusion h
  case pos =>
  rw [if_pos hmk] at h
  injection h with h
  subst h
  have htf2 : checkTopFields env cacheDir tlsAddr maxOpen (some enableQUIC) =
      .ok (cacheDir, tlsAddr, maxOpen, enableQUIC) :=
    checkTopFields_idem env cfg.CacheDir cfg.TLSAddr cfg.MaxOpen
      cfg.EnableQUIC cacheDir tlsAddr maxOpen enableQUIC htf
  have hoidc2 := checkOIDC_idem env cfg.OIDCProviders [] oidc seen1 hoidc
  have hsaml2 := checkSAML_idem env cfg.SAMLProviders seen1 saml seen2 hsaml
  have hpk2 := checkPasskey_idem env cfg.PasskeyProviders seen2 passkey idps
    hpk
  have hpres12 := checkServerNamesLoop_preserves bes1 [] [] bes2 sns ks hloop
  have hpres23 := checkBackendDetails_preserves env pkis bwNames idps bes2
    bes3 hdet
  have hmode3 : ∀ c ∈ bes3, checkBackendMode enableQUIC c = .ok c := by
    intro c hc
    obtain ⟨b2, hb2, hrel23⟩ := forall₂_mem_right hpres23 c hc
    obtain ⟨b1, hb1, hrel12⟩ := forall₂_mem_right hpres12 b2 hb2
    obtain ⟨a, ha, hma⟩ := checkBackendModes_mem enableQUIC cfg.Backends bes1
      hbm b1 hb1
    have hprops1 := checkBackendMode_inv enableQUIC a b1 hma
    have hprops2 := modeProps_transfer b1 b2 hrel12.1
      (by rw [hrel12.2.2.1]) (by rw [hrel12.2.1]) (by rw [hrel12.2.2.2.1])
      (by rw [hrel12.2.2.2.2.1]) (by rw [hrel12.2.2.2.2.2]) hprops1
    have hprops3 := modeProps_transfer b2 c hrel23.1
      (by rw [hrel23.2.2.2.2.1]) (by rw [hrel23.2.2.2.1])
      (by rw [hrel23.2.2.2.2.2.1]) (by rw [hrel23.2.2.2.2.2.2.1])
      (by rw [hrel23.2.2.2.2.2.2.2.1]) hprops2
    exact checkBackendMode_fix enableQUIC c hprops3.1 hprops3.2.1
      hprops3.2.2.1 hprops3.2.2.2.1 hprops3.2.2.2.2.1
      hprops3.2.2.2.2.2.1 hprops3.2.2.2.2.2.2
  have hbm2 : checkBackendModes enableQUIC bes3 = .ok bes3 :=
    checkBackendModes_fix_all enableQUIC bes3 hmode3
  have hview23 : List.Forall₂ (fun a b => a.Mode = b.Mode ∧
      a.ALPNProtos = b.ALPNProtos ∧ a.ServerNames = b.ServerNames)
      bes2 bes3 := by
    refine List.Forall₂.imp ?_ hpres23
    intro a b hrel
    exact ⟨hrel.1.symm, hrel.2.2.2.1.symm, hrel.2.2.1.symm⟩
  have hloop2 : checkServerNamesLoop [] [] bes3 = .ok (bes3, sns, ks) :=
    checkServerNamesLoop_self bes1 [] [] bes2 sns ks hloop bes3 hview23
  have hdet2 : checkBackendDetails env pkis bwNames idps bes3 = .ok bes3 :=
    checkBackendDetails_idem env pkis bwNames idps bes2 bes3 hdet
  rw [Check]
  try simp only []
  rw [htf2]
  try simp only []
  rw [idnaToASCII_idem, hoidc2]
  try simp only []
  rw [hsaml2]
  try simp only []
  rw [hpk2]
  try simp only []
  rw [hbm2]
  try simp only []
  rw [hloop2]
  try simp only []
  rw [hpkis]
  try simp only []
  rw [hbw]
  try simp only []
  rw [hdet2]
  try simp only []
  rw [if_pos hmk]

/-- Witness for `check_idempotent`: the concrete configuration `cfgW` is
accepted, producing `cfgW1`, and re-validating `cfgW1` returns `cfgW1`
unchanged. -/
theorem check_idempotent_witness :
    Check env0 cfgW = .ok cfgW1 ∧ Check env0 cfgW1 = .ok cfgW1 :=
  ⟨rfl, check_idempotent env0 cfgW cfgW1 rfl⟩

end TlsProxy
